import Mathlib

set_option maxHeartbeats 1000000

/- Verification of the schema-to-parser compilation pipeline of the
   152compiler2 repository: schema validation, C code generation, the
   generated C parser's semantics, the driver wire protocol, and the
   Go-side result decoder. -/

/-- Mirror of analyzer.FieldInfo.  The reflect.Type and Offset members are
    runtime reflection artifacts not used by the compiler package's logic;
    the members the compiler reads (Name, CType) are kept, together with the
    other plain string members. -/
structure FieldInfo where
  Name : String
  GoName : String := ""
  CType : String
  Kind : String := ""
deriving DecidableEq, Repr

/-- Mirror of analyzer.CStruct. -/
structure CStruct where
  Name : String
  Fields : List FieldInfo
deriving DecidableEq, Repr

/-- The validation error kinds produced by validateStruct, one per distinct
    fmt.Errorf message. -/
inductive VErr where
  | EmptyName
  | InvalidName
  | NoFields
  | EmptyFieldName
  | InvalidFieldName
  | DuplicateFieldName
  | EmptyType
  | UnsupportedType
deriving DecidableEq, Repr

/-- First-character class of the identifier regexp `[a-zA-Z_]`. -/
def isIdentStart (c : Char) : Bool :=
  ('a' ≤ c && c ≤ 'z') || ('A' ≤ c && c ≤ 'Z') || c = '_'

/-- Tail-character class of the identifier regexp `[a-zA-Z0-9_]`. -/
def isIdentTail (c : Char) : Bool :=
  isIdentStart c || ('0' ≤ c && c ≤ '9')

/-- Semantics of Go's validIdentifierRegex `^[a-zA-Z_][a-zA-Z0-9_]*$`. -/
def isValidIdentifier (s : String) : Bool :=
  match s.toList with
  | [] => false
  | c :: cs => isIdentStart c && cs.all isIdentTail

/-- The three C types accepted by validateStruct's switch. -/
def supportedCType (ct : String) : Bool :=
  ct = "char*" || ct = "int" || ct = "bool"

/-- The per-field loop of validateStruct: field name empty / invalid /
    already seen, then the CType switch (supported, empty, default).
    `seen` models the fieldNames map. -/
def validateFields (seen : List String) : List FieldInfo → Option VErr
  | [] => none
  | f :: fs =>
    if f.Name = "" then some .EmptyFieldName
    else if ¬ isValidIdentifier f.Name then some .InvalidFieldName
    else if f.Name ∈ seen then some .DuplicateFieldName
    else if supportedCType f.CType then validateFields (f.Name :: seen) fs
    else if f.CType = "" then some .EmptyType
    else some .UnsupportedType

/-- validateStruct from src/unnamed/part_002: none means nil error. -/
def validateStruct (s : CStruct) : Option VErr :=
  if s.Name = "" then some .EmptyName
  else if ¬ isValidIdentifier s.Name then some .InvalidName
  else if s.Fields = [] then some .NoFields
  else validateFields [] s.Fields

/-- Modelled from the spec's §4.1 ordering: the first violated rule, scanning
    name rules, then fields in declaration order, where a duplicate means the
    field's name already occurred among declaration-earlier fields. -/
def fieldFirstViolation (prior : List String) : List FieldInfo → Option VErr
  | [] => none
  | f :: fs =>
    if f.Name = "" then some .EmptyFieldName
    else if ¬ isValidIdentifier f.Name then some .InvalidFieldName
    else if f.Name ∈ prior then some .DuplicateFieldName
    else if f.CType = "" then some .EmptyType
    else if ¬ supportedCType f.CType then some .UnsupportedType
    else fieldFirstViolation (prior ++ [f.Name]) fs

/-- Modelled from the spec's §4.1 rule order at the schema level. -/
def firstViolation (s : CStruct) : Option VErr :=
  if s.Name = "" then some .EmptyName
  else if ¬ isValidIdentifier s.Name then some .InvalidName
  else if s.Fields = [] then some .NoFields
  else fieldFirstViolation [] s.Fields

theorem validateFields_eq_firstViolation (fs : List FieldInfo) :
    ∀ seen prior : List String, (∀ n, n ∈ seen ↔ n ∈ prior) →
    validateFields seen fs = fieldFirstViolation prior fs := by
  induction fs with
  | nil => intro seen prior _; rfl
  | cons f fs ih =>
    intro seen prior hmem
    have hdup : (f.Name ∈ seen) = (f.Name ∈ prior) := propext (hmem f.Name)
    by_cases h1 : f.Name = ""
    · simp [validateFields, fieldFirstViolation, h1]
    · by_cases h2 : isValidIdentifier f.Name
      · by_cases h3 : f.Name ∈ prior
        · have h3' : f.Name ∈ seen := (hmem f.Name).mpr h3
          simp [validateFields, fieldFirstViolation, h1, h2, h3, h3']
        · have h3' : f.Name ∉ seen := fun h => h3 ((hmem f.Name).mp h)
          by_cases h4 : f.CType = ""
          · have h5 : supportedCType "" = false := by decide
            simp [validateFields, fieldFirstViolation, h1, h2, h3, h3', h4, h5]
          · by_cases h5 : supportedCType f.CType
            · have hrec := ih (f.Name :: seen) (prior ++ [f.Name]) (by
                intro n
                simp only [List.mem_cons, List.mem_append, List.mem_singleton, hmem n]
                tauto)
              simp [validateFields, fieldFirstViolation, h1, h2, h3, h3', h4, h5, hrec]
            · simp [validateFields, fieldFirstViolation, h1, h2, h3, h3', h4, h5]
      · simp [validateFields, fieldFirstViolation, h1, h2]

/-- C3: validateStruct reports exactly the first violated rule in the fixed
    §4.1 order (name rules first, then per-field rules in declaration order,
    each short-circuiting). -/
theorem c3_first_violation (s : CStruct) :
    validateStruct s = firstViolation s := by
  unfold validateStruct firstViolation
  by_cases h1 : s.Name = ""
  · simp [h1]
  · by_cases h2 : isValidIdentifier s.Name
    · by_cases h3 : s.Fields = []
      · simp [h1, h2, h3]
      · simp [h1, h2, h3, validateFields_eq_firstViolation s.Fields [] [] (by simp)]
    · simp [h1, h2]

/-- Closed instance of c3_first_violation: a schema violating several rules at
    once (invalid second field name and a duplicate, unsupported third type)
    reports only the earliest per-field violation. -/
theorem c3_first_violation_witness :
    validateStruct ⟨"Person", [⟨"name", "", "char*", ""⟩, ⟨"bad name", "", "float", ""⟩,
      ⟨"name", "", "double", ""⟩]⟩ = some VErr.InvalidFieldName :=
  (c3_first_violation _).trans (by decide)

/-- Modelled from the spec's words for C2: the quoted success condition of
    validate (name and field names match the identifier grammar, field names
    pairwise distinct, every field type supported) — with no requirement that
    the fields list be non-empty. -/
def c2SpecCondition (s : CStruct) : Prop :=
  isValidIdentifier s.Name = true ∧
  (∀ f ∈ s.Fields, isValidIdentifier f.Name = true) ∧
  (s.Fields.map (·.Name)).Nodup ∧
  (∀ f ∈ s.Fields, supportedCType f.CType = true)

/-- The success condition of validateStruct as the code implements it: the
    spec's quoted condition plus a non-empty fields list. -/
def validSchemaCondition (s : CStruct) : Prop :=
  isValidIdentifier s.Name = true ∧ s.Fields ≠ [] ∧
  (∀ f ∈ s.Fields, isValidIdentifier f.Name = true) ∧
  (s.Fields.map (·.Name)).Nodup ∧
  (∀ f ∈ s.Fields, supportedCType f.CType = true)

theorem validateFields_none_iff (fs : List FieldInfo) :
    ∀ seen : List String, validateFields seen fs = none ↔
      ((∀ f ∈ fs, isValidIdentifier f.Name = true ∧ supportedCType f.CType = true) ∧
       (fs.map (·.Name)).Nodup ∧ ∀ f ∈ fs, f.Name ∉ seen) := by
  induction fs with
  | nil => intro seen; simp [validateFields]
  | cons f fs ih =>
    intro seen
    by_cases h2 : isValidIdentifier f.Name
    · by_cases h3 : f.Name ∈ seen
      · have h1 : f.Name ≠ "" := by
          intro h; rw [h] at h2; exact absurd h2 (by decide)
        have hL : validateFields seen (f :: fs) = some VErr.DuplicateFieldName := by
          simp only [validateFields]
          rw [if_neg h1, if_neg (by simp [h2]), if_pos h3]
        rw [hL]
        constructor
        · intro h; cases h
        · rintro ⟨-, -, hc⟩
          exact absurd h3 (hc f (List.mem_cons_self _ _))
      · by_cases h5 : supportedCType f.CType
        · have h1 : f.Name ≠ "" := by
            intro h; rw [h] at h2; exact absurd h2 (by decide)
          have hL : validateFields seen (f :: fs) = validateFields (f.Name :: seen) fs := by
            simp only [validateFields]
            rw [if_neg h1, if_neg (by simp [h2]), if_neg h3, if_pos h5]
          rw [hL, ih]
          constructor
          · rintro ⟨ha, hb, hc⟩
            refine ⟨?_, ?_, ?_⟩
            · intro g hg
              rcases List.mem_cons.mp hg with hg | hg
              · exact ⟨(by rw [hg]; exact h2), (by rw [hg]; exact h5)⟩
              · exact ha g hg
            · simp only [List.map_cons, List.nodup_cons]
              refine ⟨?_, hb⟩
              intro hmem
              rcases List.mem_map.mp hmem with ⟨g, hg, hgname⟩
              exact (hc g hg) (by rw [hgname]; exact List.mem_cons_self _ _)
            · intro g hg
              rcases List.mem_cons.mp hg with hg | hg
              · rw [hg]; exact h3
              · intro hmem
                exact (hc g hg) (List.mem_cons_of_mem _ hmem)
          · rintro ⟨ha, hb, hc⟩
            simp only [List.map_cons, List.nodup_cons, List.mem_map] at hb
            refine ⟨?_, hb.2, ?_⟩
            · intro g hg; exact ha g (List.mem_cons_of_mem _ hg)
            · intro g hg
              intro hmem
              rcases List.mem_cons.mp hmem with hgf | hgs
              · exact hb.1 ⟨g, hg, hgf⟩
              · exact (hc g (List.mem_cons_of_mem _ hg)) hgs
        · have h1 : f.Name ≠ "" := by
            intro h; rw [h] at h2; exact absurd h2 (by decide)
          have : validateFields seen (f :: fs) =
              (if f.CType = "" then some VErr.EmptyType else some VErr.UnsupportedType) := by
            simp only [validateFields]
            rw [if_neg h1, if_neg (by simp [h2]), if_neg h3, if_neg h5]
          rw [this]
          constructor
          · intro h; by_cases hct : f.CType = "" <;> simp [hct] at h
          · rintro ⟨ha, _⟩
            exact absurd (ha f (List.mem_cons_self _ _)).2 h5
    · have : validateFields seen (f :: fs) =
          (if f.Name = "" then some VErr.EmptyFieldName else some VErr.InvalidFieldName) := by
        simp only [validateFields]
        by_cases h1 : f.Name = ""
        · rw [if_pos h1, if_pos h1]
        · rw [if_neg h1, if_neg h1, if_pos (by simp [h2])]
      rw [this]
      constructor
      · intro h; by_cases h1 : f.Name = "" <;> simp [h1] at h
      · rintro ⟨ha, _⟩
        exact absurd (ha f (List.mem_cons_self _ _)).1 h2

/-- C2 (amended): validateStruct succeeds iff the name and every field name
    match the identifier grammar, the fields list is non-empty, the field
    names are pairwise distinct, and every field type is supported. -/
theorem c2_validate_iff (s : CStruct) :
    validateStruct s = none ↔ validSchemaCondition s := by
  unfold validateStruct validSchemaCondition
  by_cases h2 : isValidIdentifier s.Name
  · have h1 : s.Name ≠ "" := by
      intro h; rw [h] at h2; exact absurd h2 (by decide)
    by_cases h3 : s.Fields = []
    · simp [h1, h2, h3]
    · rw [if_neg h1, if_neg (by simp [h2])]
      rw [if_neg h3, validateFields_none_iff]
      simp only [List.not_mem_nil, not_false_iff, implies_true, and_true, ne_eq, h3,
        not_false_eq_true, true_and, h2]
      constructor
      · rintro ⟨ha, hb⟩
        exact ⟨fun f hf => (ha f hf).1, hb, fun f hf => (ha f hf).2⟩
      · rintro ⟨ha, hb, hc⟩
        exact ⟨fun f hf => ⟨ha f hf, hc f hf⟩, hb⟩
  · have hn : validateStruct s = some VErr.EmptyName ∨
        validateStruct s = some VErr.InvalidName := by
      unfold validateStruct
      by_cases h1 : s.Name = ""
      · left; rw [if_pos h1]
      · right; rw [if_neg h1, if_pos (by simp [h2])]
    constructor
    · intro h
      unfold validateStruct at h
      by_cases h1 : s.Name = ""
      · rw [if_pos h1] at h; cases h
      · rw [if_neg h1, if_pos (by simp [h2])] at h; cases h
    · rintro ⟨ha, _⟩
      exact absurd ha h2

/-- C2 counterexample: the schema ⟨"Person", []⟩ satisfies the claim's quoted
    success condition (which omits non-emptiness of the fields list), yet
    validateStruct rejects it with the no-fields error. -/
theorem c2_counterexample :
    c2SpecCondition ⟨"Person", []⟩ ∧
    validateStruct ⟨"Person", []⟩ = some VErr.NoFields := by
  constructor
  · refine ⟨by decide, ?_, ?_, ?_⟩ <;> simp
  · decide

/-- Closed instance of c2_validate_iff at the Person schema of the tests. -/
theorem c2_validate_iff_witness :
    validateStruct ⟨"Person", [⟨"name", "", "char*", ""⟩, ⟨"age", "", "int", ""⟩,
      ⟨"is_student", "", "bool", ""⟩]⟩ = none :=
  (c2_validate_iff _).mpr (by refine ⟨by decide, by simp, ?_, ?_, ?_⟩ <;> decide)

/-- C values stored in the generated struct's members; none in vstr models a
    NULL char* (the memset-zero initial state). -/
inductive CVal where
  | vstr (s : Option String)
  | vint (n : Int)
  | vbool (b : Bool)
deriving DecidableEq, Repr

/-- The generated struct's contents, one entry per schema field. -/
abbrev StructVal := List (String × CVal)

/-- memset-to-zero initial member value per C type. -/
def zeroCVal (ct : String) : CVal :=
  if ct = "char*" then .vstr none
  else if ct = "bool" then .vbool false
  else .vint 0

/-- The zeroed output struct parse_and_serialize_json starts from. -/
def initStruct (fields : List FieldInfo) : StructVal :=
  fields.map (fun f => (f.Name, zeroCVal f.CType))

/-- Assignment to one named member of the output struct. -/
def updateStruct (st : StructVal) (name : String) (v : CVal) : StructVal :=
  st.map (fun p => if p.1 = name then (p.1, v) else p)

/-- Read of one named member of the output struct. -/
def lookupStruct (st : StructVal) (name : String) : Option CVal :=
  (st.find? (fun p => p.1 == name)).map (·.2)

/-- is_escaped from the template: parity of the backslash run immediately
    before the current position; pre is the already-consumed input, most
    recently consumed character first. -/
def isEsc (pre : List Char) : Bool :=
  (pre.takeWhile (· == '\\')).length % 2 == 1

/-- Character class skipped at the top of the key-value loop and before the
    closing brace check (space, newline, tab, comma). -/
def isWsComma (c : Char) : Bool :=
  c == ' ' || c == '\n' || c == '\t' || c == ','

/-- Character class skipped around the colon (space, newline, tab). -/
def isWs (c : Char) : Bool :=
  c == ' ' || c == '\n' || c == '\t'

/-- A while-loop that consumes characters matching p (stopping at end of
    input, where C reads the NUL terminator). -/
def skipChars (p : Char → Bool) : List Char → List Char → List Char × List Char
  | pre, [] => (pre, [])
  | pre, c :: rest => if p c then skipChars p (c :: pre) rest else (pre, c :: rest)

/-- The quoted-string reading loop shared by field-name reading and char*
    value parsing: consumes until an unescaped quote, turning each
    backslash-quote pair into a quote; stops without consuming at the closing
    quote, or at end of input. -/
def readQuoted : List Char → List Char → List Char → List Char × List Char × List Char
  | pre, [], acc => (acc.reverse, pre, [])
  | pre, '\\' :: '"' :: rest, acc => readQuoted ('"' :: '\\' :: pre) rest ('"' :: acc)
  | pre, c :: rest, acc =>
    if c == '"' && !(isEsc pre) then (acc.reverse, pre, c :: rest)
    else readQuoted (c :: pre) rest (c :: acc)

/-- The digit-run reader of the integer branch. -/
def readDigits : List Char → List Char → List Char × List Char × List Char
  | pre, [] => ([], pre, [])
  | pre, c :: rest =>
    if '0' ≤ c && c ≤ '9' then
      match readDigits (c :: pre) rest with
      | (ds, pre2, rest2) => (c :: ds, pre2, rest2)
    else ([], pre, c :: rest)

/-- atoi on the collected digit run. -/
def digitsToNat (ds : List Char) : Nat :=
  ds.foldl (fun a c => a * 10 + (c.toNat - '0'.toNat)) 0

/-- The unknown-field value skip loop: consumes until end of input, or until
    a comma or closing delimiter at nesting depth 0 outside a string, with
    quote state toggled at unescaped quotes. -/
def skipUnknown : List Char → List Char → Nat → Bool → List Char × List Char
  | pre, [], _, _ => (pre, [])
  | pre, c :: rest, depth, instr =>
    if !instr && (c == '}' || c == ']') && depth == 0 then (pre, c :: rest)
    else if !instr && c == ',' && depth == 0 then (pre, c :: rest)
    else
      skipUnknown (c :: pre) rest
        (if !instr && (c == '{' || c == '[') then depth + 1
         else if !instr && (c == '}' || c == ']') then depth - 1
         else depth)
        (if c == '"' && !(isEsc pre) then !instr else instr)

/-- The per-type value-parsing branches of the generated parse_json:
    char* reads a quoted string (strdup'd), int reads an optional minus and a
    digit run (failing when no digits follow), bool strncmp-matches the
    literals true and false. -/
def parseCValue (ct : String) (pre rest : List Char) :
    Option (CVal × List Char × List Char) :=
  if ct = "char*" then
    match rest with
    | '"' :: rest1 =>
      match readQuoted ('"' :: pre) rest1 [] with
      | (v, pre2, rest2) =>
        match rest2 with
        | '"' :: rest3 => some (.vstr (some (String.mk v)), '"' :: pre2, rest3)
        | _ => none
    | _ => none
  else if ct = "int" then
    match
      (match rest with
       | '-' :: r => (true, ('-' :: pre, r))
       | _ => (false, (pre, rest))) with
    | (neg, (pre1, rest1)) =>
      match readDigits pre1 rest1 with
      | (ds, pre2, rest2) =>
        if ds.isEmpty then none
        else some (.vint ((if neg then -1 else 1) * (digitsToNat ds : Int)), pre2, rest2)
  else if ct = "bool" then
    match rest with
    | 't' :: 'r' :: 'u' :: 'e' :: rest1 =>
      some (.vbool true, 'e' :: 'u' :: 'r' :: 't' :: pre, rest1)
    | 'f' :: 'a' :: 'l' :: 's' :: 'e' :: rest1 =>
      some (.vbool false, 'e' :: 's' :: 'l' :: 'a' :: 'f' :: pre, rest1)
    | _ => none
  else none

/-- The chain of strcmp branches the template generates, one per schema
    field: the first field whose Name equals the parsed key wins. -/
def findField (fields : List FieldInfo) (key : List Char) : Option FieldInfo :=
  fields.find? (fun f => f.Name.toList == key)

/-- The field-dispatch stage of one key-value iteration: the chain of strcmp
    branches (first matching schema field wins, its typed value parser runs
    and the loop continues via recur), or the unknown-field skip.  recur is
    the continuation back into the loop. -/
def parseValStage (fields : List FieldInfo)
    (recur : List Char → List Char → StructVal → Option (StructVal × List Char × List Char))
    (key pre4 rest7 : List Char) (st : StructVal) :
    Option (StructVal × List Char × List Char) :=
  match findField fields key with
  | some fld =>
    if supportedCType fld.CType then
      match parseCValue fld.CType pre4 rest7 with
      | some (v, pre5, rest8) => recur pre5 rest8 (updateStruct st fld.Name v)
      | none => none
    else recur pre4 rest7 st
  | none =>
    match skipUnknown pre4 rest7 0 false with
    | (pre5, rest8) => recur pre5 rest8 st

/-- The colon stage of one iteration: expect a colon, skip whitespace, go on
    to the field dispatch. -/
def parseColon (fields : List FieldInfo)
    (recur : List Char → List Char → StructVal → Option (StructVal × List Char × List Char))
    (key pre3 rest5 : List Char) (st : StructVal) :
    Option (StructVal × List Char × List Char) :=
  match rest5 with
  | ':' :: rest6 =>
    match skipChars isWs (':' :: pre3) rest6 with
    | (pre4, rest7) => parseValStage fields recur key pre4 rest7 st
  | _ => none

/-- After the key was read: expect the closing quote, skip whitespace, go on
    to the colon stage. -/
def parseKeyDone (fields : List FieldInfo)
    (recur : List Char → List Char → StructVal → Option (StructVal × List Char × List Char))
    (key pre2 rest3 : List Char) (st : StructVal) :
    Option (StructVal × List Char × List Char) :=
  match rest3 with
  | '"' :: rest4 =>
    match skipChars isWs ('"' :: pre2) rest4 with
    | (pre3, rest5) => parseColon fields recur key pre3 rest5 st
  | _ => none

/-- The body of one iteration after the leading whitespace/comma skip: break
    on a closing brace, else read a quoted key and continue through the
    stages; anything else is the C parser's -1. -/
def parseBody (fields : List FieldInfo)
    (recur : List Char → List Char → StructVal → Option (StructVal × List Char × List Char))
    (pre1 rest1 : List Char) (st : StructVal) :
    Option (StructVal × List Char × List Char) :=
  match rest1 with
  | '}' :: _ => some (st, pre1, rest1)
  | '"' :: rest2 =>
    match readQuoted ('"' :: pre1) rest2 [] with
    | (key, pre2, rest3) => parseKeyDone fields recur key pre2 rest3 st
  | _ => none

/-- The main key-value loop of the generated parse_json, with explicit fuel;
    each iteration consumes at least one character, so input length + 1 fuel
    never runs out. Returns the struct and the position at loop exit, or none
    for the C parser's -1. -/
def parseLoopFuel (fields : List FieldInfo) :
    Nat → List Char → List Char → StructVal → Option (StructVal × List Char × List Char)
  | 0, _, _, _ => none
  | _ + 1, pre, [], st => some (st, pre, [])
  | fuel + 1, pre, c :: rest, st =>
    if c == '}' then some (st, pre, c :: rest)
    else
      match skipChars isWsComma pre (c :: rest) with
      | (pre1, rest1) => parseBody fields (parseLoopFuel fields fuel) pre1 rest1 st

/-- parse_json from the template: expects an opening brace, loops over
    key-value pairs, then requires a closing brace after trailing
    whitespace/commas. -/
def parse_json (fields : List FieldInfo) (input : List Char) : Option StructVal :=
  match input with
  | '{' :: rest =>
    match parseLoopFuel fields (input.length + 1) ['{'] rest (initStruct fields) with
    | none => none
    | some (st, pre', rest') =>
      match skipChars isWsComma pre' rest' with
      | (_, '}' :: _) => some st
      | _ => none
  | _ => none

/-- One pipe-delimited token of parse_and_serialize_json for one field; a
    NULL char* member prints as an empty token, and a CType outside the
    template's three cases emits nothing. -/
def serializeField (st : StructVal) (f : FieldInfo) : List Char :=
  if f.CType = "char*" then
    '|' :: (match lookupStruct st f.Name with
      | some (.vstr (some s)) => s.toList
      | _ => [])
  else if f.CType = "int" then
    '|' :: (match lookupStruct st f.Name with
      | some (.vint n) => (toString n).toList
      | _ => (toString (0 : Int)).toList)
  else if f.CType = "bool" then
    '|' :: (match lookupStruct st f.Name with
      | some (.vbool b) => if b then "true".toList else "false".toList
      | _ => "false".toList)
  else []

/-- parse_and_serialize_json: zero the struct, parse, then emit SUCCESS plus
    one pipe-delimited token per field in schema order; NULL (none) on parse
    failure. -/
def parse_and_serialize_json (fields : List FieldInfo) (input : List Char) :
    Option (List Char) :=
  match parse_json fields input with
  | none => none
  | some st => some ("SUCCESS".toList ++ (fields.map (serializeField st)).flatten)

/-- The driver main: prints the serialized record and exits 0, or prints the
    ERROR sentinel line and exits 1 when parse_and_serialize_json returns
    NULL. -/
def runDriver (fields : List FieldInfo) (doc : String) : List Char × Nat :=
  match parse_and_serialize_json fields doc.toList with
  | none => ("ERROR|Failed to parse JSON\n".toList, 1)
  | some out => (out, 0)

/-- Go strings.TrimSpace on the ASCII whitespace the artifact can emit. -/
def isGoSpace (c : Char) : Bool :=
  c == ' ' || c == '\t' || c == '\n' || c == '\r' || c == '\x0b' || c == '\x0c'

/-- Leading and trailing whitespace removal (strings.TrimSpace). -/
def goTrimSpace (l : List Char) : List Char :=
  ((l.dropWhile isGoSpace).reverse.dropWhile isGoSpace).reverse

/-- Go strings.Split on the pipe separator (always at least one piece). -/
def splitPipe : List Char → List (List Char)
  | [] => [[]]
  | c :: rest =>
    if c == '|' then [] :: splitPipe rest
    else
      match splitPipe rest with
      | t :: ts => (c :: t) :: ts
      | [] => [[c]]

/-- The interface values CompiledParser.Parse stores in its result map: int
    and char* fields stay textual, bool fields become Go bools. -/
inductive GoValue where
  | str (s : String)
  | bool (b : Bool)
deriving DecidableEq, Repr

/-- The (map, error) pair returned by CompiledParser.Parse. -/
inductive GoResult where
  | ok (m : List (String × GoValue))
  | err (msg : String)
deriving DecidableEq, Repr

/-- The decoding loop of CompiledParser.Parse: fields zipped positionally
    with the tokens after the sentinel; the loop breaks when tokens run out,
    and the type switch has no default case. -/
def decodeLoop : List FieldInfo → List (List Char) → List (String × GoValue)
  | [], _ => []
  | _, [] => []
  | f :: fs, t :: ts =>
    (if f.CType = "int" then [(f.Name, GoValue.str (String.mk t))]
     else if f.CType = "bool" then [(f.Name, GoValue.bool (t == "true".toList))]
     else if f.CType = "char*" then [(f.Name, GoValue.str (String.mk t))]
     else []) ++ decodeLoop fs ts

/-- CompiledParser.Parse after the subprocess ran: trim the output, split on
    pipes, trim each part, check the SUCCESS sentinel, decode positionally. -/
def decodeOutput (fields : List FieldInfo) (out : List Char) : GoResult :=
  match (splitPipe (goTrimSpace out)).map goTrimSpace with
  | [] => GoResult.err ("parsing failed: " ++ String.mk out)
  | p0 :: rest =>
    if p0 = "SUCCESS".toList then GoResult.ok (decodeLoop fields rest)
    else GoResult.err ("parsing failed: " ++ String.mk out)

/-- CompiledParser.Parse end to end: run the artifact once; a non-zero exit
    is the "parser execution failed" error carrying the combined output;
    otherwise decode the pipe protocol. -/
def goParse (fields : List FieldInfo) (doc : String) : GoResult :=
  match runDriver fields doc with
  | (out, 0) => decodeOutput fields out
  | (out, _) =>
    GoResult.err ("parser execution failed: exit status 1\nOutput: " ++ String.mk out)

/-- The Person test schema {name:STRING, age:INTEGER, is_student:BOOLEAN}. -/
def personFields : List FieldInfo :=
  [⟨"name", "", "char*", ""⟩, ⟨"age", "", "int", ""⟩, ⟨"is_student", "", "bool", ""⟩]

/-- C1: for the Person schema, parsing the round-trip document succeeds and
    yields name as the verbatim string, the integer delivered as the text
    "25", and the boolean as a true Go boolean. -/
theorem c1_round_trip :
    goParse personFields "\x7b\"name\":\"John Doe\",\"age\":25,\"is_student\":true\x7d" =
      GoResult.ok [("name", GoValue.str "John Doe"), ("age", GoValue.str "25"),
        ("is_student", GoValue.bool true)] := by
  decide

/-- C4: for the Person schema, a document omitting two declared fields still
    parses, and the absent integer and boolean fields surface as the zeroed
    struct members "0" and false — no explicit missing marker exists in the
    result. -/
theorem c4_missing_defaults :
    goParse personFields "\x7b\"name\":\"John Doe\"\x7d" =
      GoResult.ok [("name", GoValue.str "John Doe"), ("age", GoValue.str "0"),
        ("is_student", GoValue.bool false)] := by
  decide

theorem supportedCType_cases {ct : String} (h : supportedCType ct = true) :
    ct = "char*" ∨ ct = "int" ∨ ct = "bool" := by
  simpa [supportedCType, or_assoc] using h

/-- Modelled from the spec's §4.6 words: STRING passes through verbatim,
    BOOLEAN compares the token against the boolean-true literal, INTEGER is
    passed through as text without producing a numeric type. -/
def specCoerce (ct : String) (t : List Char) : GoValue :=
  if ct = "bool" then .bool (t == "true".toList)
  else .str (String.mk t)

/-- C5: on supported field types the decoding loop is exactly positional
    zipping followed by the spec's per-kind coercion: STRING and INTEGER
    tokens pass through as text, BOOLEAN tokens are compared against the
    literal true. -/
theorem c5_decoder_coercion (fields : List FieldInfo) (tokens : List (List Char))
    (h : ∀ f ∈ fields, supportedCType f.CType = true) :
    decodeLoop fields tokens =
      (fields.zip tokens).map (fun p => (p.1.Name, specCoerce p.1.CType p.2)) := by
  induction fields generalizing tokens with
  | nil => simp [decodeLoop]
  | cons f fs ih =>
    cases tokens with
    | nil => simp [decodeLoop]
    | cons t ts =>
      have hf := supportedCType_cases (h f (List.mem_cons_self _ _))
      have hrest : ∀ g ∈ fs, supportedCType g.CType = true :=
        fun g hg => h g (List.mem_cons_of_mem _ hg)
      rcases hf with h1 | h1 | h1 <;>
        simp [decodeLoop, specCoerce, h1, ih ts hrest]

theorem decodeLoop_take_tokens (fields : List FieldInfo) :
    ∀ tokens : List (List Char),
      decodeLoop fields tokens = decodeLoop fields (tokens.take fields.length) := by
  induction fields with
  | nil => intro tokens; cases tokens <;> simp [decodeLoop]
  | cons f fs ih =>
    intro tokens
    cases tokens with
    | nil => simp [decodeLoop]
    | cons t ts => simp [decodeLoop, ih ts]

theorem decodeLoop_take_fields (fields : List FieldInfo) :
    ∀ tokens : List (List Char),
      decodeLoop fields tokens = decodeLoop (fields.take tokens.length) tokens := by
  induction fields with
  | nil => intro tokens; cases tokens <;> simp [decodeLoop]
  | cons f fs ih =>
    intro tokens
    cases tokens with
    | nil => simp [decodeLoop]
    | cons t ts => simp [decodeLoop, ih ts]

/-- C6: extra tokens beyond the schema's field count never influence the
    decoded mapping; fewer tokens truncate the mapping to the fields that
    received a token; and any output whose first trimmed token is the success
    sentinel decodes without error. -/
theorem c6_token_count (fields : List FieldInfo) :
    (∀ tokens : List (List Char),
      decodeLoop fields tokens = decodeLoop fields (tokens.take fields.length)) ∧
    (∀ tokens : List (List Char), tokens.length < fields.length →
      decodeLoop fields tokens = decodeLoop (fields.take tokens.length) tokens) ∧
    (∀ out : List Char,
      ((splitPipe (goTrimSpace out)).map goTrimSpace).head? = some "SUCCESS".toList →
      decodeOutput fields out =
        GoResult.ok (decodeLoop fields (((splitPipe (goTrimSpace out)).map goTrimSpace).tail))) := by
  refine ⟨decodeLoop_take_tokens fields, fun tokens _ => decodeLoop_take_fields fields tokens, ?_⟩
  intro out hout
  unfold decodeOutput
  cases hparts : (splitPipe (goTrimSpace out)).map goTrimSpace with
  | nil => rw [hparts] at hout; cases hout
  | cons p0 rest =>
    rw [hparts] at hout
    have : p0 = "SUCCESS".toList := by
      simpa using hout
    simp [this]

/-- Closed instance of c6_token_count: one token against the three-field
    Person schema decodes, without error, to a mapping covering only the
    first field. -/
theorem c6_token_count_witness :
    decodeOutput personFields ("SUCCESS|John Doe".toList) =
      GoResult.ok [("name", GoValue.str "John Doe")] := by
  rw [(c6_token_count personFields).2.2 "SUCCESS|John Doe".toList (by decide)]
  decide

/-- Closed instance of c5_decoder_coercion: four tokens against the
    three-field Person schema coerce per kind, the extra token ignored by the
    positional zip. -/
theorem c5_decoder_coercion_witness :
    decodeLoop personFields ["John Doe".toList, "25".toList, "true".toList, "x".toList] =
      [("name", GoValue.str "John Doe"), ("age", GoValue.str "25"),
       ("is_student", GoValue.bool true)] := by
  rw [c5_decoder_coercion personFields _ (by decide)]
  decide

/-- The error CompiledParser.Parse reports when the driver exits 1 after a
    parse failure (captured combined output attached). -/
def parseFailMsg : String :=
  "parser execution failed: exit status 1\nOutput: ERROR|Failed to parse JSON\n"

theorem goParse_err_of_none (fields : List FieldInfo) (doc : String)
    (h : parse_json fields doc.toList = none) :
    goParse fields doc = GoResult.err parseFailMsg := by
  unfold goParse runDriver parse_and_serialize_json
  rw [h]
  rfl

theorem parse_json_no_open (fields : List FieldInfo) (l : List Char)
    (h : l.head? ≠ some '{') : parse_json fields l = none := by
  cases l with
  | nil => rfl
  | cons c rest =>
    have hc : c ≠ '{' := by simpa using h
    unfold parse_json
    split
    · rename_i heq
      injection heq with h1 h2
      exact absurd h1 hc
    · rfl

theorem skipChars_suffix (p : Char → Bool) :
    ∀ (rest pre : List Char), (skipChars p pre rest).2 <:+ rest := by
  intro rest
  induction rest with
  | nil => intro pre; simp [skipChars]
  | cons c r ih =>
    intro pre
    by_cases hp : p c
    · simp only [skipChars, hp, if_true]
      exact (ih (c :: pre)).trans (List.suffix_cons c r)
    · simp [skipChars, hp]

theorem readQuoted_suffix_aux :
    ∀ (n : Nat) (rest : List Char), rest.length ≤ n →
      ∀ pre acc, (readQuoted pre rest acc).2.2 <:+ rest := by
  intro n
  induction n with
  | zero =>
    intro rest hlen pre acc
    have hnil : rest = [] := List.eq_nil_of_length_eq_zero (Nat.le_zero.mp hlen)
    subst hnil
    simp [readQuoted]
  | succ n ih =>
    intro rest hlen pre acc
    cases rest with
    | nil => simp [readQuoted]
    | cons c r =>
      by_cases hpair : c = '\\' ∧ ∃ r2, r = '"' :: r2
      · obtain ⟨hc, r2, hr2⟩ := hpair
        subst hc; subst hr2
        rw [readQuoted.eq_2]
        have hr : r2.length ≤ n := by
          simp only [List.length_cons] at hlen; omega
        exact ((ih r2 hr _ _).trans (List.suffix_cons _ _)).trans (List.suffix_cons _ _)
      · have hside : ∀ (r2 : List Char), c = '\\' → r = '"' :: r2 → False := by
          intro r2 hc hr; exact hpair ⟨hc, r2, hr⟩
        rw [readQuoted.eq_3 _ _ _ _ hside]
        by_cases hq : (c == '"' && !isEsc pre) = true
        · rw [if_pos hq]
        · rw [if_neg hq]
          have hr : r.length ≤ n := by
            simp only [List.length_cons] at hlen; omega
          exact (ih r hr _ _).trans (List.suffix_cons _ _)

theorem readQuoted_suffix (pre rest acc : List Char) :
    (readQuoted pre rest acc).2.2 <:+ rest :=
  readQuoted_suffix_aux rest.length rest (Nat.le_refl _) pre acc

theorem readDigits_suffix :
    ∀ (rest pre : List Char), (readDigits pre rest).2.2 <:+ rest := by
  intro rest
  induction rest with
  | nil => intro pre; simp [readDigits]
  | cons c r ih =>
    intro pre
    by_cases hd : ('0' ≤ c && c ≤ '9') = true
    · rcases hres : readDigits (c :: pre) r with ⟨ds, pre2, rest2⟩
      have h2 := ih (c :: pre)
      rw [hres] at h2
      simp only [readDigits, hd, if_true, hres]
      exact h2.trans (List.suffix_cons _ _)
    · simp [readDigits, hd]

theorem skipUnknown_suffix :
    ∀ (rest pre : List Char) (d : Nat) (b : Bool),
      (skipUnknown pre rest d b).2 <:+ rest := by
  intro rest
  induction rest with
  | nil => intro pre d b; simp [skipUnknown]
  | cons c r ih =>
    intro pre d b
    simp only [skipUnknown]
    split
    · exact List.suffix_refl _
    · split
      · exact List.suffix_refl _
      · exact (ih _ _ _).trans (List.suffix_cons _ _)

theorem parseCValue_suffix (ct : String) (pre rest : List Char) :
    ∀ v pre' rest', parseCValue ct pre rest = some (v, pre', rest') → rest' <:+ rest := by
  intro v pre' rest' h
  unfold parseCValue at h
  split at h
  · -- char* branch
    split at h
    · -- rest = '"' :: rest1
      rename_i rest1
      rcases hrq : readQuoted ('"' :: pre) rest1 [] with ⟨vv, pre2, rest2⟩
      rw [hrq] at h
      dsimp only [] at h
      have hsuf : rest2 <:+ rest1 := by
        have hx := readQuoted_suffix ('"' :: pre) rest1 []
        rw [hrq] at hx; exact hx
      split at h
      · rename_i rest3
        injection h with h1
        injection h1 with _ h2
        injection h2 with _ h3
        subst h3
        exact ((List.suffix_cons _ _).trans hsuf).trans (List.suffix_cons _ _)
      · cases h
    · cases h
  · split at h
    · -- int branch
      rcases hsrc : (match rest with
          | '-' :: r => (true, ('-' :: pre, r))
          | _ => (false, (pre, rest))) with ⟨neg, pre1, rest1⟩
      rw [hsrc] at h
      dsimp only [] at h
      have hrest1 : rest1 <:+ rest := by
        split at hsrc
        · rename_i r
          injection hsrc with h1 h2
          injection h2 with h3 h4
          subst h4
          exact List.suffix_cons _ _
        · injection hsrc with h1 h2
          injection h2 with h3 h4
          subst h4
          exact List.suffix_refl _
      rcases hdig : readDigits pre1 rest1 with ⟨ds, pre2, rest2⟩
      rw [hdig] at h
      dsimp only [] at h
      have hsuf2 : rest2 <:+ rest1 := by
        have hx := readDigits_suffix rest1 pre1
        rw [hdig] at hx; exact hx
      split at h
      · cases h
      · injection h with h1
        injection h1 with _ h2
        injection h2 with _ h3
        subst h3
        exact hsuf2.trans hrest1
    · split at h
      · -- bool branch
        split at h
        · rename_i rest1
          injection h with h1
          injection h1 with _ h2
          injection h2 with _ h3
          subst h3
          exact (((List.suffix_cons _ _).trans (List.suffix_cons _ _)).trans
            (List.suffix_cons _ _)).trans (List.suffix_cons _ _)
        · rename_i rest1
          injection h with h1
          injection h1 with _ h2
          injection h2 with _ h3
          subst h3
          exact ((((List.suffix_cons _ _).trans (List.suffix_cons _ _)).trans
            (List.suffix_cons _ _)).trans (List.suffix_cons _ _)).trans (List.suffix_cons _ _)
        · cases h
      · cases h

theorem parseLoopFuel_suffix (fields : List FieldInfo) :
    ∀ (fuel : Nat) (rest pre : List Char) (st st' : StructVal) (pre' rest' : List Char),
      parseLoopFuel fields fuel pre rest st = some (st', pre', rest') → rest' <:+ rest := by
  intro fuel
  induction fuel with
  | zero => intro rest pre st st' pre' rest' h; cases h
  | succ fuel ih =>
    intro rest pre st st' pre' rest' h
    cases rest with
    | nil =>
      unfold parseLoopFuel at h
      injection h with h1
      injection h1 with _ h2
      injection h2 with _ h3
      subst h3
      exact List.suffix_refl _
    | cons c r =>
      unfold parseLoopFuel at h
      split at h
      · injection h with h1
        injection h1 with _ h2
        injection h2 with _ h3
        subst h3
        exact List.suffix_refl _
      · rcases hskip : skipChars isWsComma pre (c :: r) with ⟨pre1, rest1⟩
        rw [hskip] at h
        dsimp only [] at h
        unfold parseBody parseKeyDone parseColon parseValStage at h
        have hs1 : rest1 <:+ c :: r := by
          have hx := skipChars_suffix isWsComma (c :: r) pre
          rw [hskip] at hx; exact hx
        split at h
        · injection h with h1
          injection h1 with _ h2
          injection h2 with _ h3
          subst h3
          exact hs1
        · rename_i rest2
          rcases hrq : readQuoted ('"' :: pre1) rest2 [] with ⟨key, pre2, rest3⟩
          rw [hrq] at h
          dsimp only [] at h
          have hs2 : rest3 <:+ rest2 := by
            have hx := readQuoted_suffix ('"' :: pre1) rest2 []
            rw [hrq] at hx; exact hx
          split at h
          · rename_i rest4
            rcases hsk2 : skipChars isWs ('"' :: pre2) rest4 with ⟨pre3, rest5⟩
            rw [hsk2] at h
            dsimp only [] at h
            have hs3 : rest5 <:+ rest4 := by
              have hx := skipChars_suffix isWs rest4 ('"' :: pre2)
              rw [hsk2] at hx; exact hx
            split at h
            · rename_i rest6
              rcases hsk3 : skipChars isWs (':' :: pre3) rest6 with ⟨pre4, rest7⟩
              rw [hsk3] at h
              dsimp only [] at h
              have hs4 : rest7 <:+ rest6 := by
                have hx := skipChars_suffix isWs rest6 (':' :: pre3)
                rw [hsk3] at hx; exact hx
              have hchain : rest7 <:+ c :: r :=
                (((hs4.trans (List.suffix_cons _ _)).trans hs3).trans
                  (List.suffix_cons _ _)).trans ((hs2.trans (List.suffix_cons _ _)).trans hs1)
              split at h
              · split at h
                · split at h
                  · rename_i vv pre5 rest8 hpc
                    have hpcs : rest8 <:+ rest7 :=
                      parseCValue_suffix _ pre4 rest7 vv pre5 rest8 hpc
                    exact ((ih _ _ _ _ _ _ h).trans hpcs).trans hchain
                  · cases h
                · exact (ih _ _ _ _ _ _ h).trans hchain
              · rcases hsu : skipUnknown pre4 rest7 0 false with ⟨pre5, rest8⟩
                rw [hsu] at h
                dsimp only [] at h
                have hs5 : rest8 <:+ rest7 := by
                  have hx := skipUnknown_suffix rest7 pre4 0 false
                  rw [hsu] at hx; exact hx
                exact ((ih _ _ _ _ _ _ h).trans hs5).trans hchain
            · cases h
          · cases h
        · cases h

theorem parse_json_no_close (fields : List FieldInfo) (l : List Char)
    (h : '}' ∉ l) : parse_json fields l = none := by
  cases l with
  | nil => rfl
  | cons c rest =>
    by_cases hc : c = '{'
    · subst hc
      show (match parseLoopFuel fields (('{' :: rest).length + 1) ['{'] rest
          (initStruct fields) with
        | none => none
        | some (st, pre', rest') =>
          match skipChars isWsComma pre' rest' with
          | (_, '}' :: _) => some st
          | _ => none) = none
      cases hloop : parseLoopFuel fields (('{' :: rest).length + 1) ['{'] rest
          (initStruct fields) with
      | none => rfl
      | some trip =>
        rcases trip with ⟨st, pre', rest'⟩
        have hsuf : rest' <:+ rest := parseLoopFuel_suffix fields _ _ _ _ _ _ _ hloop
        rcases hswc : skipChars isWsComma pre' rest' with ⟨pre2, rest2⟩
        have hsuf2 : rest2 <:+ rest' := by
          have hx := skipChars_suffix isWsComma rest' pre'
          rw [hswc] at hx; exact hx
        dsimp only []
        rw [hswc]
        cases rest2 with
        | nil => rfl
        | cons d r2 =>
          by_cases hd : d = '}'
          · exfalso
            apply h
            subst hd
            have hmem : '}' ∈ rest' := hsuf2.subset (List.mem_cons_self _ _)
            exact List.mem_cons_of_mem _ (hsuf.subset hmem)
          · split
            · rename_i heq
              injection heq with _ h2
              injection h2 with h3 _
              exact absurd h3 hd
            · rfl
    · unfold parse_json
      split
      · rename_i heq
        injection heq with h1 _
        exact absurd h1 hc
      · rfl

/-- C8: malformed inputs yield a non-success result: every document not
    starting with an opening brace fails, every document containing no
    closing brace fails, the unquoted-key, unquoted-string-value,
    invalid-boolean and invalid-integer test documents fail (driver emits the
    failure sentinel and exits 1), and — the artifact being spawned fresh per
    call with no retained state — a subsequent parse of a valid document
    still succeeds. -/
theorem c8_malformed_inputs :
    (∀ (fields : List FieldInfo) (doc : String), doc.toList.head? ≠ some '{' →
      goParse fields doc = GoResult.err parseFailMsg) ∧
    (∀ (fields : List FieldInfo) (doc : String), '}' ∉ doc.toList →
      goParse fields doc = GoResult.err parseFailMsg) ∧
    goParse personFields "\x7bname: \"John Doe\"\x7d" = GoResult.err parseFailMsg ∧
    goParse personFields "\x7b\"name\": John Doe\x7d" = GoResult.err parseFailMsg ∧
    goParse personFields "\x7b\"is_student\": maybe\x7d" = GoResult.err parseFailMsg ∧
    goParse personFields "\x7b\"age\": twenty\x7d" = GoResult.err parseFailMsg ∧
    goParse personFields "\x7b\"name\": \"John Doe\", \"age\": 25, \"is_student\": true\x7d" =
      GoResult.ok [("name", GoValue.str "John Doe"), ("age", GoValue.str "25"),
        ("is_student", GoValue.bool true)] := by
  refine ⟨?_, ?_, by decide, by decide, by decide, by decide, by decide⟩
  · intro fields doc hd
    exact goParse_err_of_none fields doc (parse_json_no_open fields doc.toList hd)
  · intro fields doc hd
    exact goParse_err_of_none fields doc (parse_json_no_close fields doc.toList hd)

/-- Closed instance of c8_malformed_inputs: the two test documents missing
    the opening and the closing brace both fail. -/
theorem c8_malformed_inputs_witness :
    goParse personFields "\"name\": \"John Doe\", \"age\": 25\x7d" = GoResult.err parseFailMsg ∧
    goParse personFields "\x7b\"name\": \"John Doe\", \"age\": 25" = GoResult.err parseFailMsg :=
  ⟨c8_malformed_inputs.1 personFields _ (by decide),
   c8_malformed_inputs.2.1 personFields _ (by decide)⟩

/-- One emitted struct member line of generateCHeader
    (Sprintf "    %s %s;\n"). -/
def memberLine (f : FieldInfo) : String :=
  "    " ++ f.CType ++ " " ++ f.Name ++ ";\n"

/-- generateCHeader from packages/compiler/generator.go: guard, includes,
    typedef with one member line per field in schema order, closing guard. -/
def generateCHeader (s : CStruct) : String :=
  "#ifndef " ++ s.Name ++ "_H\n" ++
  "#define " ++ s.Name ++ "_H\n\n" ++
  "#include <stdint.h>\n#include <stdbool.h>\n\n" ++
  "typedef struct \x7b\n" ++
  (s.Fields.foldl (fun acc f => acc ++ memberLine f) "") ++
  "\x7d " ++ s.Name ++ ";\n\n" ++
  "#endif // " ++ s.Name ++ "_H\n"

/-- The header text before the member lines. -/
def headerIntro (s : CStruct) : String :=
  "#ifndef " ++ s.Name ++ "_H\n" ++ "#define " ++ s.Name ++ "_H\n\n" ++
  "#include <stdint.h>\n#include <stdbool.h>\n\n" ++ "typedef struct \x7b\n"

/-- The header text after the member lines. -/
def headerOutro (s : CStruct) : String :=
  "\x7d " ++ s.Name ++ ";\n\n" ++ "#endif // " ++ s.Name ++ "_H\n"

theorem foldl_memberLine (l : List FieldInfo) :
    ∀ a : String, l.foldl (fun acc f => acc ++ memberLine f) a =
      a ++ String.join (l.map memberLine) := by
  induction l with
  | nil =>
    intro a
    apply String.ext
    simp [String.join_eq, String.data_append]
  | cons f fs ih =>
    intro a
    simp only [List.foldl_cons, List.map_cons]
    rw [ih]
    apply String.ext
    simp [String.join_eq, String.data_append]

/-- C9: the generated type definition emits its member lines in exactly the
    schema's field order — the emitted member block is the in-order map of
    memberLine over the fields, so the i-th member line comes from the i-th
    FieldSpec. -/
theorem c9_header_field_order (s : CStruct) :
    generateCHeader s =
      headerIntro s ++ String.join (s.Fields.map memberLine) ++ headerOutro s ∧
    ∀ i : Nat, (s.Fields.map memberLine)[i]? = (s.Fields[i]?).map memberLine := by
  constructor
  · unfold generateCHeader headerIntro headerOutro
    rw [foldl_memberLine]
    apply String.ext
    simp [String.data_append]
  · intro i
    exact List.getElem?_map memberLine s.Fields i

/-- Closed instance of c9_header_field_order at the Person schema. -/
theorem c9_header_field_order_witness :
    generateCHeader ⟨"Person", personFields⟩ =
      headerIntro ⟨"Person", personFields⟩ ++
        String.join (personFields.map memberLine) ++ headerOutro ⟨"Person", personFields⟩ :=
  (c9_header_field_order ⟨"Person", personFields⟩).1

/-- The per-field serialization block of ParserTemplate's first range
    (braces and apostrophes of the C text written as hex escapes). -/
def serializeSnippet (f : FieldInfo) : String :=
  if f.CType = "char*" then
    "\n    if (out." ++ f.Name ++ " != NULL) \x7b\n" ++
    "        strcat(serialized, \"|\");\n" ++
    "        strcat(serialized, out." ++ f.Name ++ ");\n" ++
    "        free(out." ++ f.Name ++ ");\n" ++
    "    \x7d else \x7b\n        strcat(serialized, \"|\");\n    \x7d\n"
  else if f.CType = "int" then
    "\n    char numStr[32];\n" ++
    "    snprintf(numStr, sizeof(numStr), \"|%d\", out." ++ f.Name ++ ");\n" ++
    "    strcat(serialized, numStr);\n"
  else if f.CType = "bool" then
    "\n    strcat(serialized, \"|\");\n" ++
    "    strcat(serialized, out." ++ f.Name ++ " ? \"true\" : \"false\");\n"
  else "\n"

/-- The per-field key-recognition block of ParserTemplate's second range: a
    strcmp branch and the type-specific value parser, ending in continue. -/
def parseSnippet (f : FieldInfo) : String :=
  "\n        if (strcmp(field, \"" ++ f.Name ++ "\") == 0) \x7b\n" ++
  (if f.CType = "char*" then
    "                if (*ptr != \x27\"\x27) return -1;\n                ptr++;\n" ++
    "                char value[256];\n                int j = 0;\n" ++
    "                while (*ptr != \x27\\0\x27 && (*ptr != \x27\"\x27 || is_escaped(input, ptr))) \x7b\n" ++
    "                    if (*ptr == \x27\\\\\x27 && *(ptr + 1) == \x27\"\x27) \x7b\n" ++
    "                        value[j++] = \x27\"\x27;\n                        ptr += 2;\n" ++
    "                    \x7d else \x7b\n                        value[j++] = *ptr++;\n                    \x7d\n                \x7d\n" ++
    "                value[j] = \x27\\0\x27;\n" ++
    "                if (*ptr != \x27\"\x27) return -1;\n                ptr++;\n" ++
    "                out->" ++ f.Name ++ " = strdup(value);\n"
  else if f.CType = "int" then
    "                char number[20];\n                int j = 0;\n" ++
    "                if (*ptr == \x27-\x27) \x7b\n                    number[j++] = *ptr++;\n                \x7d\n" ++
    "                while (*ptr >= \x270\x27 && *ptr <= \x279\x27) \x7b\n                    number[j++] = *ptr++;\n                \x7d\n" ++
    "                number[j] = \x27\\0\x27;\n" ++
    "                if (j == 0 || (j == 1 && number[0] == \x27-\x27)) return -1;\n" ++
    "                out->" ++ f.Name ++ " = atoi(number);\n"
  else if f.CType = "bool" then
    "                if (strncmp(ptr, \"true\", 4) == 0) \x7b\n" ++
    "                    out->" ++ f.Name ++ " = true;\n                    ptr += 4;\n" ++
    "                \x7d else if (strncmp(ptr, \"false\", 5) == 0) \x7b\n" ++
    "                    out->" ++ f.Name ++ " = false;\n                    ptr += 5;\n" ++
    "                \x7d else \x7b\n                    return -1;\n                \x7d\n"
  else "") ++
  "            continue;\n        \x7d\n"

/-- The literal template text before the serialization range, with .Header
    and .StructName substituted. -/
def templateHead (s : CStruct) : String :=
  "\n#include <string.h>\n#include <stdbool.h>\n#include <stdlib.h>\n#include <stdio.h>\n" ++
  "#include \"" ++ s.Name ++ ".h\"\n\n" ++
  "// Function declarations\n" ++
  "int parse_json(const char* input, " ++ s.Name ++ "* out);\n" ++
  "char* parse_and_serialize_json(const char* input);\n" ++
  "void free_serialized(char* str);\n\n" ++
  "char* parse_and_serialize_json(const char* input) \x7b\n" ++
  "    " ++ s.Name ++ " out;\n" ++
  "    memset(&out, 0, sizeof(" ++ s.Name ++ "));\n\n" ++
  "    int result = parse_json(input, &out);\n" ++
  "    if (result != 0) \x7b\n        return NULL;\n    \x7d\n\n" ++
  "    char* serialized = (char*)malloc(1024);\n" ++
  "    if (serialized == NULL) return NULL;\n\n" ++
  "    snprintf(serialized, 1024, \"SUCCESS\");\n"

/-- The literal template text between the two ranges: end of the serializer,
    free_serialized, is_escaped, and the head of parse_json down to the colon
    and whitespace handling before the field branches. -/
def templateMid (s : CStruct) : String :=
  "\n    return serialized;\n\x7d\n\n" ++
  "void free_serialized(char* str) \x7b\n    if (str != NULL) \x7b\n        free(str);\n    \x7d\n\x7d\n\n" ++
  "static bool is_escaped(const char* str, const char* pos) \x7b\n" ++
  "    int backslashes = 0;\n" ++
  "    while (pos > str && *(pos - 1) == \x27\\\\\x27) \x7b\n" ++
  "        backslashes++;\n        pos--;\n    \x7d\n" ++
  "    return (backslashes % 2) == 1;\n\x7d\n\n" ++
  "int parse_json(const char* input, " ++ s.Name ++ "* out) \x7b\n" ++
  "    const char* ptr = input;\n\n" ++
  "    if (*ptr != \x27\x7b\x27) return -1;\n    ptr++;\n\n" ++
  "    while (*ptr != \x27\x7d\x27 && *ptr != \x27\\0\x27) \x7b\n" ++
  "        while (*ptr && (*ptr == \x27 \x27 || *ptr == \x27\\n\x27 || *ptr == \x27\\t\x27 || *ptr == \x27,\x27)) ptr++;\n" ++
  "        if (*ptr == \x27\x7d\x27) break;\n" ++
  "        if (*ptr != \x27\"\x27) return -1;\n        ptr++;\n" ++
  "        char field[256];\n        int i = 0;\n" ++
  "        while (*ptr != \x27\\0\x27 && (*ptr != \x27\"\x27 || is_escaped(input, ptr))) \x7b\n" ++
  "            if (*ptr == \x27\\\\\x27 && *(ptr + 1) == \x27\"\x27) \x7b\n" ++
  "                field[i++] = \x27\"\x27;\n                ptr += 2;\n" ++
  "            \x7d else \x7b\n                field[i++] = *ptr++;\n            \x7d\n        \x7d\n" ++
  "        field[i] = \x27\\0\x27;\n" ++
  "        if (*ptr != \x27\"\x27) return -1;\n        ptr++;\n" ++
  "        while (*ptr && (*ptr == \x27 \x27 || *ptr == \x27\\n\x27 || *ptr == \x27\\t\x27)) ptr++;\n" ++
  "        if (*ptr != \x27:\x27) return -1;\n        ptr++;\n" ++
  "        while (*ptr && (*ptr == \x27 \x27 || *ptr == \x27\\n\x27 || *ptr == \x27\\t\x27)) ptr++;\n"

/-- The literal template text after the field branches: the unknown-field
    skip loop and the closing-brace check. -/
def templateTail : String :=
  "\n        int depth = 0;\n        bool in_string = false;\n" ++
  "        while (*ptr != \x27\\0\x27) \x7b\n" ++
  "            if (!in_string) \x7b\n" ++
  "                if (*ptr == \x27\x7b\x27 || *ptr == \x27[\x27) depth++;\n" ++
  "                if (*ptr == \x27\x7d\x27 || *ptr == \x27]\x27) \x7b\n" ++
  "                    if (depth == 0) break;\n                    depth--;\n                \x7d\n" ++
  "                if (*ptr == \x27,\x27 && depth == 0) break;\n            \x7d\n" ++
  "            if (*ptr == \x27\"\x27 && !is_escaped(input, ptr)) \x7b\n" ++
  "                in_string = !in_string;\n            \x7d\n            ptr++;\n        \x7d\n    \x7d\n\n" ++
  "    while (*ptr && (*ptr == \x27 \x27 || *ptr == \x27\\n\x27 || *ptr == \x27\\t\x27 || *ptr == \x27,\x27)) ptr++;\n" ++
  "    if (*ptr != \x27\x7d\x27) return -1;\n\n    return 0;\n\x7d\n"

/-- The rendered ParserTemplate: literal text with the two field ranges
    expanded in schema order. -/
def parserBodyText (s : CStruct) : String :=
  templateHead s ++ String.join (s.Fields.map serializeSnippet) ++ templateMid s ++
  String.join (s.Fields.map parseSnippet) ++ templateTail

/-- GenerateCCode: Sprintf "%s\n%s" of the header and the rendered parser
    template. -/
def GenerateCCode (s : CStruct) : String :=
  generateCHeader s ++ "\n" ++ parserBodyText s

/-- The marker CompileParser splits the generated source at,
    Sprintf "#endif // %s_H\n". -/
def headerEnd (s : CStruct) : String :=
  "#endif // " ++ s.Name ++ "_H\n"

/-- CompileParser's scan: the first index whose following characters equal
    the marker splits the code into header-file and implementation-file
    contents; pre holds the scanned characters reversed.  Falling off the end
    finds nothing. -/
def splitAux (marker : List Char) : List Char → List Char → Option (List Char × List Char)
  | _, [] => none
  | pre, c :: r =>
    if marker.isPrefixOf (c :: r) then
      some (pre.reverse ++ marker, (c :: r).drop marker.length)
    else splitAux marker (c :: pre) r

/-- The split of the generated code at the first marker occurrence. -/
def splitAtMarker (code marker : String) : Option (String × String) :=
  (splitAux marker.toList [] code.toList).map (fun p => (String.mk p.1, String.mk p.2))

/-- The post-validation write step of CompileParser: the files it writes with
    their contents; when the marker is never found the loop falls through and
    nothing is written, yet CompileParser still returns nil. -/
def compileParserFilesGiven (s : CStruct) (code : String) : List (String × String) :=
  match splitAtMarker code (headerEnd s) with
  | some (hdr, impl) => [(s.Name ++ ".h", hdr), (s.Name ++ ".c", impl)]
  | none => []

/-- CompileParser: validate the struct, generate the code, split it at the
    header guard marker and report the files written. -/
def compileParserFiles (s : CStruct) : Except VErr (List (String × String)) :=
  match validateStruct s with
  | some e => .error e
  | none => .ok (compileParserFilesGiven s (GenerateCCode s))

theorem append_drop_of_marker :
    ∀ (l m : List Char), m.isPrefixOf l = true → m ++ l.drop m.length = l := by
  intro l
  induction l with
  | nil =>
    intro m hm
    cases m with
    | nil => rfl
    | cons x xs => simp [List.isPrefixOf] at hm
  | cons c r ih =>
    intro m hm
    cases m with
    | nil => rfl
    | cons x xs =>
      simp only [List.isPrefixOf, Bool.and_eq_true, beq_iff_eq] at hm
      obtain ⟨h1, h2⟩ := hm
      subst h1
      simp only [List.length_cons, List.drop_succ_cons, List.cons_append, List.cons.injEq,
        true_and]
      exact ih xs h2

theorem marker_isPrefixOf_append :
    ∀ (m t : List Char), m.isPrefixOf (m ++ t) = true := by
  intro m t
  induction m with
  | nil => simp [List.isPrefixOf]
  | cons x xs ih => simp [List.isPrefixOf, ih]

theorem splitAux_found (marker : List Char) (hm : marker ≠ []) :
    ∀ (rest pre a b : List Char), rest = a ++ marker ++ b →
      ∃ h i, splitAux marker pre rest = some (h, i) ∧
        h ++ i = pre.reverse ++ rest ∧ ∃ p, h = p ++ marker := by
  intro rest
  induction rest with
  | nil =>
    intro pre a b hab
    exfalso
    rcases List.append_eq_nil.mp hab.symm with ⟨h1, h2⟩
    rcases List.append_eq_nil.mp h1 with ⟨_, h3⟩
    exact hm h3
  | cons c r ih =>
    intro pre a b hab
    by_cases hpf : marker.isPrefixOf (c :: r) = true
    · refine ⟨pre.reverse ++ marker, (c :: r).drop marker.length, ?_, ?_, pre.reverse, rfl⟩
      · simp [splitAux, hpf]
      · rw [List.append_assoc]
        congr 1
        exact append_drop_of_marker _ _ hpf
    · cases a with
      | nil =>
        exfalso
        apply hpf
        simp only [List.nil_append] at hab
        rw [hab]
        exact marker_isPrefixOf_append marker b
      | cons a0 a' =>
        simp only [List.cons_append] at hab
        obtain ⟨h1, h2⟩ := List.cons.inj hab
        obtain ⟨hh, ii, heq, hcat, hp⟩ := ih (c :: pre) a' b h2
        refine ⟨hh, ii, ?_, ?_, hp⟩
        · simp only [splitAux, hpf, if_false]
          exact heq
        · rw [hcat]
          simp [List.reverse_cons, List.append_assoc]

/-- C10: the generated source begins with the header segment, the header
    segment ends with the exact guard marker, CompileParser's scan finds the
    marker and the two file contents it writes concatenate exactly to the
    full generated source; and whenever the marker is absent from a code
    string the scan falls through, writing nothing while still succeeding. -/
theorem c10_header_marker_split (s : CStruct) :
    (∃ t, GenerateCCode s = generateCHeader s ++ t) ∧
    (∃ p, generateCHeader s = p ++ headerEnd s) ∧
    (∃ hdr impl, splitAtMarker (GenerateCCode s) (headerEnd s) = some (hdr, impl) ∧
      hdr ++ impl = GenerateCCode s ∧ ∃ q, hdr = q ++ headerEnd s) ∧
    (∀ code : String, splitAtMarker code (headerEnd s) = none →
      compileParserFilesGiven s code = []) := by
  have hpre : generateCHeader s =
      ("#ifndef " ++ s.Name ++ "_H\n" ++ "#define " ++ s.Name ++ "_H\n\n" ++
       "#include <stdint.h>\n#include <stdbool.h>\n\n" ++ "typedef struct \x7b\n" ++
       (s.Fields.foldl (fun acc f => acc ++ memberLine f) "") ++ "\x7d " ++ s.Name ++ ";\n\n") ++
      headerEnd s := by
    apply String.ext
    simp [generateCHeader, headerEnd, String.data_append, List.append_assoc]
  refine ⟨⟨"\n" ++ parserBodyText s, by unfold GenerateCCode; rw [String.append_assoc]⟩,
    ⟨_, hpre⟩, ?_, ?_⟩
  · have hmne : (headerEnd s).toList ≠ [] := by
      have hd : ("#endif // ").data = ['#', 'e', 'n', 'd', 'i', 'f', ' ', '/', '/', ' '] := rfl
      have hdata : (headerEnd s).toList =
          ("#endif // ").data ++ s.Name.data ++ ("_H\n").data := by
        show (headerEnd s).data = _
        simp [headerEnd, String.data_append, List.append_assoc]
      rw [hdata, hd]
      simp
    have hocc : (GenerateCCode s).toList =
        ("#ifndef " ++ s.Name ++ "_H\n" ++ "#define " ++ s.Name ++ "_H\n\n" ++
         "#include <stdint.h>\n#include <stdbool.h>\n\n" ++ "typedef struct \x7b\n" ++
         (s.Fields.foldl (fun acc f => acc ++ memberLine f) "") ++ "\x7d " ++ s.Name ++
         ";\n\n").data ++ (headerEnd s).toList ++ ("\n" ++ parserBodyText s).data := by
      show (GenerateCCode s).data = _
      unfold GenerateCCode
      rw [hpre]
      show (_ : String).data = _
      simp [String.data_append, List.append_assoc]
    obtain ⟨hh, ii, heq, hcat, q, hq⟩ :=
      splitAux_found (headerEnd s).toList hmne (GenerateCCode s).toList [] _ _ hocc
    refine ⟨String.mk hh, String.mk ii, ?_, ?_, ⟨String.mk q, ?_⟩⟩
    · unfold splitAtMarker
      rw [heq]
      rfl
    · have hcat2 : hh ++ ii = (GenerateCCode s).toList := by simpa using hcat
      calc String.mk hh ++ String.mk ii = String.mk (hh ++ ii) := rfl
        _ = String.mk (GenerateCCode s).toList := by rw [hcat2]
        _ = GenerateCCode s := rfl
    · rw [hq]
      rfl
  · intro code hnone
    unfold compileParserFilesGiven
    rw [hnone]

/-- Closed instance of c10_header_marker_split: a code string with no marker
    makes the write step a no-op that still succeeds. -/
theorem c10_header_marker_split_witness :
    compileParserFilesGiven ⟨"Person", personFields⟩ "no marker here" = [] :=
  (c10_header_marker_split ⟨"Person", personFields⟩).2.2.2 "no marker here" (by decide)

/-- C7 counterexample: the document with the unknown key u, whose string
    value ends in a lone backslash directly before its closing quote, makes
    the skip loop treat that quote as escaped and run past the end of the
    object, so the parse fails — while the same document with the unknown
    key removed parses fine.  The unknown key is an error here, and the two
    results differ. -/
theorem c7_counterexample :
    goParse personFields "\x7b\"u\":\"\\\",\"name\":\"a\"\x7d" = GoResult.err parseFailMsg ∧
    goParse personFields "\x7b\"name\":\"a\"\x7d" =
      GoResult.ok [("name", GoValue.str "a"), ("age", GoValue.str "0"),
        ("is_student", GoValue.bool false)] :=
  ⟨by decide, by decide⟩

mutual
/-- Abstract values of the restricted well-formed flat-document grammar used
    for the unknown-key-removal property: strings whose characters contain no
    backslash and no NUL (quotes are rendered escaped), integers as an
    optional minus and a non-empty digit run, the two boolean literals, and
    nested objects and arrays. -/
inductive JVal where
  | jstr (cs : List Char)
  | jint (neg : Bool) (ds : List Char)
  | jbool (b : Bool)
  | jobj (ms : JMembers)
  | jarr (vs : JArr)

/-- Key-value member lists of an object. -/
inductive JMembers where
  | jnil
  | jcons (key : List Char) (v : JVal) (rest : JMembers)

/-- Value lists of an array. -/
inductive JArr where
  | anil
  | acons (v : JVal) (rest : JArr)
end

/-- String-content rendering: quotes appear backslash-escaped, everything
    else verbatim. -/
def escapeChars : List Char → List Char
  | [] => []
  | c :: cs => if c = '"' then '\\' :: '"' :: escapeChars cs else c :: escapeChars cs

mutual
/-- Rendered text of a value. -/
def renderVal : JVal → List Char
  | .jstr cs => '"' :: escapeChars cs ++ ['"']
  | .jint neg ds => (if neg then ['-'] else []) ++ ds
  | .jbool b => if b then "true".toList else "false".toList
  | .jobj ms => '{' :: renderMembers ms ++ ['}']
  | .jarr vs => '[' :: renderArr vs ++ [']']

/-- Rendered member list: first member plain, the rest comma-led. -/
def renderMembers : JMembers → List Char
  | .jnil => []
  | .jcons k v rest =>
    '"' :: escapeChars k ++ '"' :: ':' :: renderVal v ++ renderMembersTail rest

/-- Rendered non-first members, each preceded by its separating comma. -/
def renderMembersTail : JMembers → List Char
  | .jnil => []
  | .jcons k v rest =>
    ',' :: '"' :: escapeChars k ++ '"' :: ':' :: renderVal v ++ renderMembersTail rest

/-- Rendered array values: first plain, the rest comma-led. -/
def renderArr : JArr → List Char
  | .anil => []
  | .acons v rest => renderVal v ++ renderArrTail rest

/-- Rendered non-first array values, comma-led. -/
def renderArrTail : JArr → List Char
  | .anil => []
  | .acons v rest => ',' :: renderVal v ++ renderArrTail rest
end

/-- One rendered key-value member without a leading comma. -/
def renderMember (k : List Char) (v : JVal) : List Char :=
  '"' :: escapeChars k ++ '"' :: ':' :: renderVal v

/-- A whole rendered document: a flat object of the grammar's members. -/
def renderDoc (ms : JMembers) : String :=
  String.mk ('{' :: renderMembers ms ++ ['}'])

/-- String characters the grammar permits: no backslash, no NUL. -/
def goodStrChar (c : Char) : Bool :=
  !(c == '\\') && !(c == Char.ofNat 0)

/-- Decimal digit test. -/
def isDigit (c : Char) : Bool :=
  '0' ≤ c && c ≤ '9'

mutual
/-- Well-formedness of a grammar value. -/
def wfVal : JVal → Bool
  | .jstr cs => cs.all goodStrChar
  | .jint _ ds => !ds.isEmpty && ds.all isDigit
  | .jbool _ => true
  | .jobj ms => wfMembers ms
  | .jarr vs => wfArr vs

/-- Well-formedness of a member list. -/
def wfMembers : JMembers → Bool
  | .jnil => true
  | .jcons k v rest => k.all goodStrChar && wfVal v && wfMembers rest

/-- Well-formedness of an array value list. -/
def wfArr : JArr → Bool
  | .anil => true
  | .acons v rest => wfVal v && wfArr rest
end

/-- Modelled from the spec's words: the same document with the unknown keys
    removed — members whose key matches no schema field name are dropped. -/
def filterKnown (fields : List FieldInfo) : JMembers → JMembers
  | .jnil => .jnil
  | .jcons k v rest =>
    match findField fields k with
    | some _ => .jcons k v (filterKnown fields rest)
    | none => filterKnown fields rest

/-- The struct member a well-typed member value parses to; none when the
    value's shape mismatches the field's C type (which the generated parser
    reports as an error). -/
def coerceVal (ct : String) : JVal → Option CVal
  | .jstr cs => if ct = "char*" then some (.vstr (some (String.mk cs))) else none
  | .jint neg ds =>
    if ct = "int" then some (.vint ((if neg then -1 else 1) * (digitsToNat ds : Int)))
    else none
  | .jbool b => if ct = "bool" then some (.vbool b) else none
  | .jobj _ => none
  | .jarr _ => none

/-- Effect of one member on the output struct: unknown keys leave it
    untouched, known keys store the coerced value or fail on mismatch. -/
def evalMember (fields : List FieldInfo) (k : List Char) (v : JVal)
    (st : StructVal) : Option StructVal :=
  match findField fields k with
  | some f =>
    match coerceVal f.CType v with
    | some cv => some (updateStruct st f.Name cv)
    | none => none
  | none => some st

/-- Effect of a member list on the output struct, in document order. -/
def evalMembers (fields : List FieldInfo) : JMembers → StructVal → Option StructVal
  | .jnil, st => some st
  | .jcons k v rest, st =>
    match evalMember fields k v st with
    | some st' => evalMembers fields rest st'
    | none => none

theorem isEsc_false_of_head {pre : List Char} (h : pre.head? ≠ some '\\') :
    isEsc pre = false := by
  cases pre with
  | nil => rfl
  | cons c t =>
    have hc : c ≠ '\\' := by simpa using h
    have hbeq : (c == '\\') = false := by
      cases hb : c == '\\'
      · rfl
      · exact absurd (by simpa using hb) hc
    simp [isEsc, List.takeWhile, hbeq]

theorem goodStrChar_ne_bs {c : Char} (h : goodStrChar c = true) : (c == '\\') = false := by
  simp only [goodStrChar, Bool.and_eq_true, Bool.not_eq_true'] at h
  exact h.1

theorem digit_not_ws {c : Char} (h : isDigit c = true) : isWs c = false := by
  cases hw : isWs c
  · rfl
  · exfalso
    simp only [isWs, Bool.or_eq_true, beq_iff_eq] at hw
    rcases hw with (h1 | h1) | h1 <;> (subst h1; exact absurd h (by decide))

theorem digit_not_wsComma {c : Char} (h : isDigit c = true) : isWsComma c = false := by
  cases hw : isWsComma c
  · rfl
  · exfalso
    simp only [isWsComma, Bool.or_eq_true, beq_iff_eq] at hw
    rcases hw with ((h1 | h1) | h1) | h1 <;> (subst h1; exact absurd h (by decide))

theorem digit_ne {c c0 : Char} (h : isDigit c = true) (h0 : isDigit c0 = false) :
    (c = c0) = False := by
  simp only [eq_iff_iff, iff_false]
  intro he
  subst he
  rw [h] at h0
  cases h0

theorem readQuoted_escape (cs : List Char) :
    ∀ (pre acc tail : List Char), cs.all goodStrChar = true → pre.head? ≠ some '\\' →
      readQuoted pre (escapeChars cs ++ '"' :: tail) acc =
        (acc.reverse ++ cs, (escapeChars cs).reverse ++ pre, '"' :: tail) := by
  induction cs with
  | nil =>
    intro pre acc tail _ hpre
    show readQuoted pre ('"' :: tail) acc = _
    rw [readQuoted.eq_3]
    · rw [isEsc_false_of_head hpre]
      simp [escapeChars]
    · intro r2 hc _
      cases hc
  | cons c cs ih =>
    intro pre acc tail hwf hpre
    simp only [List.all_cons, Bool.and_eq_true] at hwf
    obtain ⟨hc1, hcs⟩ := hwf
    by_cases hc : c = '"'
    · subst hc
      show readQuoted pre (('\\' :: '"' :: escapeChars cs) ++ '"' :: tail) acc = _
      rw [List.cons_append, List.cons_append, readQuoted.eq_2]
      rw [ih ('"' :: '\\' :: pre) ('"' :: acc) tail hcs (by simp)]
      simp [escapeChars, List.append_assoc]
    · have hcb : (c == '\\') = false := goodStrChar_ne_bs hc1
      have hcq : (c == '"') = false := by
        cases hb : c == '"'
        · rfl
        · exact absurd (by simpa using hb) hc
      have hesc : escapeChars (c :: cs) = c :: escapeChars cs := by
        simp [escapeChars, hc]
      rw [hesc, List.cons_append, readQuoted.eq_3]
      · rw [hcq]
        simp only [Bool.false_and, if_false, Bool.and_eq_true]
        rw [ih (c :: pre) (c :: acc) tail hcs (by
          simp only [List.head?_cons, ne_eq, Option.some.injEq]
          intro he; rw [he] at hcb; simp at hcb)]
        simp [List.append_assoc]
      · intro r2 hceq _
        rw [hceq] at hcb
        simp at hcb

theorem readDigits_run (ds : List Char) :
    ∀ (pre tail : List Char), ds.all isDigit = true →
      (∀ c, tail.head? = some c → isDigit c = false) →
      readDigits pre (ds ++ tail) = (ds, ds.reverse ++ pre, tail) := by
  induction ds with
  | nil =>
    intro pre tail _ htail
    cases tail with
    | nil => simp [readDigits]
    | cons t ts =>
      have ht : isDigit t = false := htail t rfl
      have ht2 : ('0' ≤ t && t ≤ '9') = false := ht
      simp [readDigits, ht2]
  | cons d ds ih =>
    intro pre tail hwf htail
    simp only [List.all_cons, Bool.and_eq_true] at hwf
    have hd : ('0' ≤ d && d ≤ '9') = true := hwf.1
    show readDigits pre (d :: (ds ++ tail)) = _
    rw [readDigits]
    rw [if_pos hd, ih (d :: pre) tail hwf.2 htail]
    simp

theorem digit_beq_false {c c0 : Char} (h : isDigit c = true) (h0 : isDigit c0 = false) :
    (c == c0) = false := by
  cases hb : c == c0
  · rfl
  · have he : c = c0 := by simpa using hb
    subst he
    rw [h] at h0
    cases h0

/-- Characters the unknown-value skip loop treats as ordinary outside a
    string: neither delimiters, separators, nor quotes. -/
def plainSkipChar (c : Char) : Bool :=
  !(c == '{') && !(c == '[') && !(c == '}') && !(c == ']') && !(c == ',') && !(c == '"')

theorem digit_plain {c : Char} (h : isDigit c = true) : plainSkipChar c = true := by
  simp only [plainSkipChar,
    digit_beq_false h (show isDigit '{' = false by decide),
    digit_beq_false h (show isDigit '[' = false by decide),
    digit_beq_false h (show isDigit '}' = false by decide),
    digit_beq_false h (show isDigit ']' = false by decide),
    digit_beq_false h (show isDigit ',' = false by decide),
    digit_beq_false h (show isDigit '"' = false by decide)]
  rfl

theorem skipUnknown_plainStep {c : Char} (hpc : plainSkipChar c = true)
    (pre rest : List Char) (d : Nat) :
    skipUnknown pre (c :: rest) d false = skipUnknown (c :: pre) rest d false := by
  simp only [plainSkipChar, Bool.and_eq_true, Bool.not_eq_true'] at hpc
  obtain ⟨⟨⟨⟨⟨h1, h2⟩, h3⟩, h4⟩, h5⟩, h6⟩ := hpc
  simp [skipUnknown, h1, h2, h3, h4, h5, h6]

theorem skipUnknown_plainRun (cs : List Char) :
    ∀ (pre tail : List Char) (d : Nat), cs.all plainSkipChar = true →
      skipUnknown pre (cs ++ tail) d false =
        skipUnknown (cs.reverse ++ pre) tail d false := by
  induction cs with
  | nil => intro pre tail d _; simp
  | cons c cs ih =>
    intro pre tail d hall
    simp only [List.all_cons, Bool.and_eq_true] at hall
    show skipUnknown pre (c :: (cs ++ tail)) d false = _
    rw [skipUnknown_plainStep hall.1, ih (c :: pre) tail d hall.2]
    simp

theorem skipUnknown_instrStep {c : Char} (hc : (c == '"') = false ∨ isEsc pre = true)
    (rest : List Char) (d : Nat) :
    skipUnknown pre (c :: rest) d true = skipUnknown (c :: pre) rest d true := by
  rcases hc with hc | hc
  · simp [skipUnknown, hc]
  · simp [skipUnknown, hc]

theorem isEsc_bs_cons {pre : List Char} (h : pre.head? ≠ some '\\') :
    isEsc ('\\' :: pre) = true := by
  have : (pre.takeWhile (· == '\\')) = [] := by
    cases pre with
    | nil => rfl
    | cons c t =>
      have hc : c ≠ '\\' := by simpa using h
      have hbeq : (c == '\\') = false := by
        cases hb : c == '\\'
        · rfl
        · exact absurd (by simpa using hb) hc
      simp [List.takeWhile, hbeq]
  simp [isEsc, List.takeWhile, this]

theorem skipUnknown_str (cs : List Char) :
    ∀ (pre tail : List Char) (d : Nat), cs.all goodStrChar = true →
      pre.head? ≠ some '\\' →
      skipUnknown pre (escapeChars cs ++ '"' :: tail) d true =
        skipUnknown ('"' :: (escapeChars cs).reverse ++ pre) tail d false := by
  induction cs with
  | nil =>
    intro pre tail d _ hpre
    show skipUnknown pre ('"' :: tail) d true = _
    have hesc : isEsc pre = false := isEsc_false_of_head hpre
    simp [skipUnknown, hesc, escapeChars]
  | cons c cs ih =>
    intro pre tail d hwf hpre
    simp only [List.all_cons, Bool.and_eq_true] at hwf
    obtain ⟨hc1, hcs⟩ := hwf
    by_cases hc : c = '"'
    · subst hc
      show skipUnknown pre (('\\' :: '"' :: escapeChars cs) ++ '"' :: tail) d true = _
      rw [List.cons_append, List.cons_append]
      rw [skipUnknown_instrStep (Or.inl (by decide))]
      rw [skipUnknown_instrStep (Or.inr (isEsc_bs_cons hpre))]
      rw [ih ('"' :: '\\' :: pre) tail d hcs (by simp)]
      simp [escapeChars, List.append_assoc]
    · have hcq : (c == '"') = false := by
        cases hb : c == '"'
        · rfl
        · exact absurd (by simpa using hb) hc
      have hcb : (c == '\\') = false := goodStrChar_ne_bs hc1
      have hesc : escapeChars (c :: cs) = c :: escapeChars cs := by
        simp [escapeChars, hc]
      rw [hesc, List.cons_append]
      rw [skipUnknown_instrStep (Or.inl hcq)]
      rw [ih (c :: pre) tail d hcs (by
        simp only [List.head?_cons, ne_eq, Option.some.injEq]
        intro he; rw [he] at hcb; simp at hcb)]
      simp [List.append_assoc]

theorem skipUnknown_strLit (cs : List Char) (pre tail : List Char) (d : Nat)
    (hwf : cs.all goodStrChar = true) (hpre : pre.head? ≠ some '\\') :
    skipUnknown pre (('"' :: escapeChars cs ++ ['"']) ++ tail) d false =
      skipUnknown (('"' :: escapeChars cs ++ ['"']).reverse ++ pre) tail d false := by
  have hesc : isEsc pre = false := isEsc_false_of_head hpre
  have hstep : skipUnknown pre (('"' :: escapeChars cs ++ ['"']) ++ tail) d false =
      skipUnknown ('"' :: pre) ((escapeChars cs ++ ['"']) ++ tail) d true := by
    rw [List.cons_append]
    simp [skipUnknown, hesc]
  rw [hstep, List.append_assoc, List.singleton_append]
  rw [skipUnknown_str cs ('"' :: pre) tail d hwf (by simp)]
  simp [List.append_assoc]

theorem skipUnknown_open (pre rest : List Char) (d : Nat) :
    skipUnknown pre ('{' :: rest) d false = skipUnknown ('{' :: pre) rest (d + 1) false := rfl

theorem skipUnknown_close (pre rest : List Char) (d : Nat) :
    skipUnknown pre ('}' :: rest) (d + 1) false = skipUnknown ('}' :: pre) rest d false := rfl

theorem skipUnknown_openB (pre rest : List Char) (d : Nat) :
    skipUnknown pre ('[' :: rest) d false = skipUnknown ('[' :: pre) rest (d + 1) false := rfl

theorem skipUnknown_closeB (pre rest : List Char) (d : Nat) :
    skipUnknown pre (']' :: rest) (d + 1) false = skipUnknown (']' :: pre) rest d false := rfl

theorem skipUnknown_comma (pre rest : List Char) (d : Nat) :
    skipUnknown pre (',' :: rest) (d + 1) false = skipUnknown (',' :: pre) rest (d + 1) false := rfl

theorem skipUnknown_colon (pre rest : List Char) (d : Nat) :
    skipUnknown pre (':' :: rest) d false = skipUnknown (':' :: pre) rest d false := rfl

theorem skipUnknown_break_close (pre rest : List Char) :
    skipUnknown pre ('}' :: rest) 0 false = (pre, '}' :: rest) := rfl

theorem skipUnknown_break_comma (pre rest : List Char) :
    skipUnknown pre (',' :: rest) 0 false = (pre, ',' :: rest) := rfl

theorem renderVal_rev_head (v : JVal) (hwf : wfVal v = true) (pre : List Char) :
    ((renderVal v).reverse ++ pre).head? ≠ some '\\' := by
  cases v with
  | jstr cs =>
    show (('"' :: escapeChars cs ++ ['"']).reverse ++ pre).head? ≠ some '\\'
    simp [List.reverse_append]
  | jint neg ds =>
    simp only [wfVal, Bool.and_eq_true, Bool.not_eq_true'] at hwf
    obtain ⟨hne, hall⟩ := hwf
    have hds : ds ≠ [] := by
      intro h; rw [h] at hne; cases hne
    cases hrev : ds.reverse with
    | nil => exact absurd (by simpa using hrev) hds
    | cons c l =>
      have hc : c ∈ ds := by
        rw [← List.mem_reverse, hrev]; exact List.mem_cons_self _ _
      have hdig : isDigit c = true := by
        rw [List.all_eq_true] at hall
        exact hall c hc
      show (((if neg then ['-'] else []) ++ ds).reverse ++ pre).head? ≠ some '\\'
      rw [List.reverse_append, hrev]
      simp only [List.cons_append, List.head?_cons, ne_eq, Option.some.injEq]
      intro he
      rw [he] at hdig
      exact absurd hdig (by decide)
  | jbool b =>
    cases b <;> simp [renderVal]
  | jobj ms =>
    show (('{' :: renderMembers ms ++ ['}']).reverse ++ pre).head? ≠ some '\\'
    simp [List.reverse_append]
  | jarr vs =>
    show (('[' :: renderArr vs ++ [']']).reverse ++ pre).head? ≠ some '\\'
    simp [List.reverse_append]

mutual
theorem skipUnknown_val : ∀ (v : JVal) (pre tail : List Char) (d : Nat),
    wfVal v = true → pre.head? ≠ some '\\' →
    skipUnknown pre (renderVal v ++ tail) d false =
      skipUnknown ((renderVal v).reverse ++ pre) tail d false
  | .jstr cs, pre, tail, d, hwf, hpre => by
    exact skipUnknown_strLit cs pre tail d hwf hpre
  | .jint neg ds, pre, tail, d, hwf, hpre => by
    have hall : ((if neg then ['-'] else []) ++ ds).all plainSkipChar = true := by
      simp only [wfVal, Bool.and_eq_true] at hwf
      rw [List.all_append, Bool.and_eq_true]
      constructor
      · cases neg <;> decide
      · rw [List.all_eq_true]
        intro c hc
        rw [List.all_eq_true] at hwf
        exact digit_plain (hwf.2 c hc)
    exact skipUnknown_plainRun _ pre tail d hall
  | .jbool b, pre, tail, d, _, hpre => by
    cases b
    · exact skipUnknown_plainRun _ pre tail d (by decide)
    · exact skipUnknown_plainRun _ pre tail d (by decide)
  | .jobj ms, pre, tail, d, hwf, hpre => by
    have hshape : renderVal (.jobj ms) ++ tail =
        '{' :: (renderMembers ms ++ ('}' :: tail)) := by
      show ('{' :: renderMembers ms ++ ['}']) ++ tail = _
      simp [List.append_assoc]
    rw [hshape, skipUnknown_open]
    rw [skipUnknown_members ms ('{' :: pre) ('}' :: tail) d hwf (by simp)]
    rw [skipUnknown_close]
    congr 1
    simp [renderVal, List.reverse_append, List.append_assoc]
  | .jarr vs, pre, tail, d, hwf, hpre => by
    have hshape : renderVal (.jarr vs) ++ tail =
        '[' :: (renderArr vs ++ (']' :: tail)) := by
      show ('[' :: renderArr vs ++ [']']) ++ tail = _
      simp [List.append_assoc]
    rw [hshape, skipUnknown_openB]
    rw [skipUnknown_arr vs ('[' :: pre) (']' :: tail) d hwf (by simp)]
    rw [skipUnknown_closeB]
    congr 1
    simp [renderVal, List.reverse_append, List.append_assoc]

theorem skipUnknown_members : ∀ (ms : JMembers) (pre tail : List Char) (d : Nat),
    wfMembers ms = true → pre.head? ≠ some '\\' →
    skipUnknown pre (renderMembers ms ++ tail) (d + 1) false =
      skipUnknown ((renderMembers ms).reverse ++ pre) tail (d + 1) false
  | .jnil, pre, tail, d, _, _ => by simp [renderMembers]
  | .jcons k v rest, pre, tail, d, hwf, hpre => by
    simp only [wfMembers, Bool.and_eq_true] at hwf
    obtain ⟨⟨hk, hv⟩, hrest⟩ := hwf
    have hshape : renderMembers (.jcons k v rest) ++ tail =
        ('"' :: escapeChars k ++ ['"']) ++
          (':' :: (renderVal v ++ (renderMembersTail rest ++ tail))) := by
      show ('"' :: escapeChars k ++ '"' :: ':' :: renderVal v ++ renderMembersTail rest)
          ++ tail = _
      simp [List.append_assoc]
    rw [hshape, skipUnknown_strLit k pre _ (d + 1) hk hpre, skipUnknown_colon]
    rw [skipUnknown_val v _ _ (d + 1) hv (by simp)]
    rw [skipUnknown_membersTail rest _ tail d hrest (renderVal_rev_head v hv _)]
    congr 1
    simp [renderMembers, List.reverse_append, List.append_assoc]

theorem skipUnknown_membersTail : ∀ (ms : JMembers) (pre tail : List Char) (d : Nat),
    wfMembers ms = true → pre.head? ≠ some '\\' →
    skipUnknown pre (renderMembersTail ms ++ tail) (d + 1) false =
      skipUnknown ((renderMembersTail ms).reverse ++ pre) tail (d + 1) false
  | .jnil, pre, tail, d, _, _ => by simp [renderMembersTail]
  | .jcons k v rest, pre, tail, d, hwf, hpre => by
    simp only [wfMembers, Bool.and_eq_true] at hwf
    obtain ⟨⟨hk, hv⟩, hrest⟩ := hwf
    have hshape : renderMembersTail (.jcons k v rest) ++ tail =
        ',' :: (('"' :: escapeChars k ++ ['"']) ++
          (':' :: (renderVal v ++ (renderMembersTail rest ++ tail)))) := by
      show (',' :: '"' :: escapeChars k ++ '"' :: ':' :: renderVal v ++
          renderMembersTail rest) ++ tail = _
      simp [List.append_assoc]
    rw [hshape, skipUnknown_comma]
    rw [skipUnknown_strLit k (',' :: pre) _ (d + 1) hk (by simp), skipUnknown_colon]
    rw [skipUnknown_val v _ _ (d + 1) hv (by simp)]
    rw [skipUnknown_membersTail rest _ tail d hrest (renderVal_rev_head v hv _)]
    congr 1
    simp [renderMembersTail, List.reverse_append, List.append_assoc]

theorem skipUnknown_arr : ∀ (vs : JArr) (pre tail : List Char) (d : Nat),
    wfArr vs = true → pre.head? ≠ some '\\' →
    skipUnknown pre (renderArr vs ++ tail) (d + 1) false =
      skipUnknown ((renderArr vs).reverse ++ pre) tail (d + 1) false
  | .anil, pre, tail, d, _, _ => by simp [renderArr]
  | .acons v rest, pre, tail, d, hwf, hpre => by
    simp only [wfArr, Bool.and_eq_true] at hwf
    obtain ⟨hv, hrest⟩ := hwf
    have hshape : renderArr (.acons v rest) ++ tail =
        renderVal v ++ (renderArrTail rest ++ tail) := by
      show (renderVal v ++ renderArrTail rest) ++ tail = _
      simp [List.append_assoc]
    rw [hshape, skipUnknown_val v _ _ (d + 1) hv hpre]
    rw [skipUnknown_arrTail rest _ tail d hrest (renderVal_rev_head v hv _)]
    congr 1
    simp [renderArr, List.reverse_append, List.append_assoc]

theorem skipUnknown_arrTail : ∀ (vs : JArr) (pre tail : List Char) (d : Nat),
    wfArr vs = true → pre.head? ≠ some '\\' →
    skipUnknown pre (renderArrTail vs ++ tail) (d + 1) false =
      skipUnknown ((renderArrTail vs).reverse ++ pre) tail (d + 1) false
  | .anil, pre, tail, d, _, _ => by simp [renderArrTail]
  | .acons v rest, pre, tail, d, hwf, hpre => by
    simp only [wfArr, Bool.and_eq_true] at hwf
    obtain ⟨hv, hrest⟩ := hwf
    have hshape : renderArrTail (.acons v rest) ++ tail =
        ',' :: (renderVal v ++ (renderArrTail rest ++ tail)) := by
      show (',' :: renderVal v ++ renderArrTail rest) ++ tail = _
      simp [List.append_assoc]
    rw [hshape, skipUnknown_comma]
    rw [skipUnknown_val v _ _ (d + 1) hv (by simp)]
    rw [skipUnknown_arrTail rest _ tail d hrest (renderVal_rev_head v hv _)]
    congr 1
    simp [renderArrTail, List.reverse_append, List.append_assoc]
end

theorem skipUnknown_top (v : JVal) (pre tail : List Char)
    (hwf : wfVal v = true) (hpre : pre.head? ≠ some '\\')
    (htail : tail.head? = some ',' ∨ tail.head? = some '}') :
    skipUnknown pre (renderVal v ++ tail) 0 false =
      ((renderVal v).reverse ++ pre, tail) := by
  rw [skipUnknown_val v pre tail 0 hwf hpre]
  rcases htail with h | h
  · cases tail with
    | nil => cases h
    | cons c r =>
      have hc : c = ',' := by simpa using h
      subst hc
      exact skipUnknown_break_comma _ _
  · cases tail with
    | nil => cases h
    | cons c r =>
      have hc : c = '}' := by simpa using h
      subst hc
      exact skipUnknown_break_close _ _

theorem parseCValue_charStar_none (pre rest : List Char) (h : rest.head? ≠ some '"') :
    parseCValue "char*" pre rest = none := by
  unfold parseCValue
  rw [if_pos rfl]
  split
  · rename_i r1
    simp at h
  · rfl

theorem parseCValue_int_none (pre rest : List Char) (c : Char) (hh : rest.head? = some c)
    (hc : c ≠ '-') (hd : isDigit c = false) :
    parseCValue "int" pre rest = none := by
  cases rest with
  | nil => cases hh
  | cons c0 r =>
    have hc0 : c0 = c := by simpa using hh
    subst hc0
    unfold parseCValue
    rw [if_neg (by decide), if_pos rfl]
    have hsign : (match c0 :: r with
        | '-' :: r => (true, ('-' :: pre, r))
        | _ => (false, (pre, c0 :: r))) = (false, (pre, c0 :: r)) := by
      split
      · rename_i heq
        injection heq with h1 _
        exact absurd h1 hc
      · rfl
    rw [hsign]
    dsimp only []
    have hdig : readDigits pre (c0 :: r) = ([], pre, c0 :: r) := by
      have hd2 : ('0' ≤ c0 && c0 ≤ '9') = false := hd
      simp [readDigits, hd2]
    rw [hdig]
    rfl

theorem parseCValue_bool_none (pre rest : List Char) (c : Char) (hh : rest.head? = some c)
    (hct : (c = 't') = False) (hcf : (c = 'f') = False) :
    parseCValue "bool" pre rest = none := by
  cases rest with
  | nil => cases hh
  | cons c0 r =>
    have hc0 : c0 = c := by simpa using hh
    subst hc0
    unfold parseCValue
    rw [if_neg (by decide), if_neg (by decide), if_pos rfl]
    split
    · rename_i heq
      injection heq with h1 _
      rw [hct] at h1
      exact h1.elim
    · rename_i heq
      injection heq with h1 _
      rw [hcf] at h1
      exact h1.elim
    · rfl

theorem parseCValue_charStar_red (pre X : List Char) :
    parseCValue "char*" pre ('"' :: X) =
      (match readQuoted ('"' :: pre) X [] with
        | (vv, pre2, rest2) =>
          match rest2 with
          | '"' :: rest3 => some (CVal.vstr (some (String.mk vv)), '"' :: pre2, rest3)
          | _ => none) := rfl

theorem parseCValue_int_red_neg (pre X : List Char) :
    parseCValue "int" pre ('-' :: X) =
      (match readDigits ('-' :: pre) X with
        | (ds, pre2, rest2) =>
          if ds.isEmpty then none
          else some (CVal.vint (-1 * (digitsToNat ds : Int)), pre2, rest2)) := rfl

theorem parseCValue_bool_true_red (pre X : List Char) :
    parseCValue "bool" pre ('t' :: 'r' :: 'u' :: 'e' :: X) =
      some (CVal.vbool true, 'e' :: 'u' :: 'r' :: 't' :: pre, X) := rfl

theorem parseCValue_bool_false_red (pre X : List Char) :
    parseCValue "bool" pre ('f' :: 'a' :: 'l' :: 's' :: 'e' :: X) =
      some (CVal.vbool false, 'e' :: 's' :: 'l' :: 'a' :: 'f' :: pre, X) := rfl

theorem parseCValue_render (ct : String) (v : JVal) (pre tail : List Char)
    (hwf : wfVal v = true)
    (htail : tail.head? = some ',' ∨ tail.head? = some '}') :
    parseCValue ct pre (renderVal v ++ tail) =
      (match coerceVal ct v with
        | some cv => some (cv, (renderVal v).reverse ++ pre, tail)
        | none => none) := by
  have htailc : ∀ c, tail.head? = some c → isDigit c = false := by
    intro c hc
    rcases htail with h | h <;>
      (rw [h] at hc; injection hc with h2; subst h2; decide)
  by_cases h1 : ct = "char*"
  · subst h1
    cases v with
    | jstr cs =>
      have hshape : renderVal (.jstr cs) ++ tail =
          '"' :: (escapeChars cs ++ '"' :: tail) := by
        show ('"' :: escapeChars cs ++ ['"']) ++ tail = _
        simp [List.append_assoc]
      rw [hshape, parseCValue_charStar_red]
      rw [readQuoted_escape cs ('"' :: pre) [] tail hwf (by simp)]
      dsimp only []
      simp [coerceVal, renderVal, List.reverse_append, List.append_assoc]
    | jint neg ds =>
      simp only [wfVal, Bool.and_eq_true, Bool.not_eq_true'] at hwf
      have hds : ds ≠ [] := by
        intro h; rw [h] at hwf; exact absurd hwf.1 (by decide)
      have hnone : parseCValue "char*" pre (renderVal (.jint neg ds) ++ tail) = none := by
        cases neg with
        | true =>
          apply parseCValue_charStar_none
          show (('-' :: ds) ++ tail).head? ≠ some '"'
          simp
        | false =>
          cases hd : ds with
          | nil => exact absurd hd hds
          | cons d ds' =>
            apply parseCValue_charStar_none
            have hdig : isDigit d = true := by
              rw [List.all_eq_true] at hwf
              exact hwf.2 d (by rw [hd]; exact List.mem_cons_self _ _)
            have hhead :
                (((if false then ['-'] else []) ++ (d :: ds')) ++ tail).head? = some d := by
              simp
            show (((if false then ['-'] else []) ++ (d :: ds')) ++ tail).head? ≠ some '"'
            rw [hhead]
            intro he
            injection he with he2
            rw [he2] at hdig
            exact absurd hdig (by decide)
      rw [hnone]
      simp [coerceVal]
    | jbool b =>
      have hnone : parseCValue "char*" pre (renderVal (.jbool b) ++ tail) = none := by
        cases b <;> (apply parseCValue_charStar_none; simp [renderVal])
      rw [hnone]
      simp [coerceVal]
    | jobj ms =>
      have hnone : parseCValue "char*" pre (renderVal (.jobj ms) ++ tail) = none := by
        apply parseCValue_charStar_none
        show (('{' :: renderMembers ms ++ ['}']) ++ tail).head? ≠ some '"'
        simp
      rw [hnone]
      simp [coerceVal]
    | jarr vs =>
      have hnone : parseCValue "char*" pre (renderVal (.jarr vs) ++ tail) = none := by
        apply parseCValue_charStar_none
        show (('[' :: renderArr vs ++ [']']) ++ tail).head? ≠ some '"'
        simp
      rw [hnone]
      simp [coerceVal]
  · by_cases h2 : ct = "int"
    · subst h2
      cases v with
      | jint neg ds =>
        simp only [wfVal, Bool.and_eq_true, Bool.not_eq_true'] at hwf
        have hds : ds ≠ [] := by
          intro h; rw [h] at hwf; exact absurd hwf.1 (by decide)
        have hemp : ds.isEmpty = false := hwf.1
        cases neg with
        | true =>
          have hshape : renderVal (.jint true ds) ++ tail = '-' :: (ds ++ tail) := by
            show (['-'] ++ ds) ++ tail = _
            simp
          rw [hshape, parseCValue_int_red_neg]
          rw [readDigits_run ds ('-' :: pre) tail hwf.2 htailc]
          dsimp only []
          rw [hemp]
          simp [coerceVal, renderVal, List.reverse_append, List.append_assoc]
        | false =>
          have hshape : renderVal (.jint false ds) ++ tail = ds ++ tail := by
            show ((if false then ['-'] else []) ++ ds) ++ tail = _
            simp
          rw [hshape]
          cases hd : ds with
          | nil => exact absurd hd hds
          | cons d ds' =>
            have hdig : isDigit d = true := by
              rw [List.all_eq_true] at hwf
              exact hwf.2 d (by rw [hd]; exact List.mem_cons_self _ _)
            unfold parseCValue
            rw [if_neg (by decide), if_pos rfl]
            have hsign : (match (d :: ds') ++ tail with
                | '-' :: r => (true, ('-' :: pre, r))
                | _ => (false, (pre, (d :: ds') ++ tail))) =
                (false, (pre, (d :: ds') ++ tail)) := by
              show (match d :: (ds' ++ tail) with
                | '-' :: r => (true, ('-' :: pre, r))
                | _ => (false, (pre, d :: (ds' ++ tail)))) = _
              split
              · rename_i heq
                injection heq with hh1 _
                rw [hh1] at hdig
                exact absurd hdig (by decide)
              · simp
            rw [hsign]
            dsimp only []
            rw [readDigits_run (d :: ds') pre tail (by rw [← hd]; exact hwf.2) htailc]
            dsimp only []
            have hemp2 : (d :: ds').isEmpty = false := rfl
            rw [hemp2]
            simp [coerceVal, renderVal, List.reverse_append, List.append_assoc]
      | jstr cs =>
        have hnone : parseCValue "int" pre (renderVal (.jstr cs) ++ tail) = none := by
          refine parseCValue_int_none _ _ '"' ?_ (by decide) (by decide)
          show (('"' :: escapeChars cs ++ ['"']) ++ tail).head? = some '"'
          simp
        rw [hnone]
        simp [coerceVal]
      | jbool b =>
        have hnone : parseCValue "int" pre (renderVal (.jbool b) ++ tail) = none := by
          cases b
          · exact parseCValue_int_none _ _ 'f' (by simp [renderVal]) (by decide) (by decide)
          · exact parseCValue_int_none _ _ 't' (by simp [renderVal]) (by decide) (by decide)
        rw [hnone]
        simp [coerceVal]
      | jobj ms =>
        have hnone : parseCValue "int" pre (renderVal (.jobj ms) ++ tail) = none := by
          refine parseCValue_int_none _ _ '{' ?_ (by decide) (by decide)
          show (('{' :: renderMembers ms ++ ['}']) ++ tail).head? = some '{'
          simp
        rw [hnone]
        simp [coerceVal]
      | jarr vs =>
        have hnone : parseCValue "int" pre (renderVal (.jarr vs) ++ tail) = none := by
          refine parseCValue_int_none _ _ '[' ?_ (by decide) (by decide)
          show (('[' :: renderArr vs ++ [']']) ++ tail).head? = some '['
          simp
        rw [hnone]
        simp [coerceVal]
    · by_cases h3 : ct = "bool"
      · subst h3
        cases v with
        | jbool b =>
          cases b
          · have hshape : renderVal (.jbool false) ++ tail =
                'f' :: 'a' :: 'l' :: 's' :: 'e' :: tail := by
              show ("false".toList) ++ tail = _
              rfl
            rw [hshape, parseCValue_bool_false_red]
            simp [coerceVal, renderVal]
          · have hshape : renderVal (.jbool true) ++ tail =
                't' :: 'r' :: 'u' :: 'e' :: tail := by
              show ("true".toList) ++ tail = _
              rfl
            rw [hshape, parseCValue_bool_true_red]
            simp [coerceVal, renderVal]
        | jstr cs =>
          have hnone : parseCValue "bool" pre (renderVal (.jstr cs) ++ tail) = none := by
            refine parseCValue_bool_none _ _ '"' ?_ (by simp) (by simp)
            show (('"' :: escapeChars cs ++ ['"']) ++ tail).head? = some '"'
            simp
          rw [hnone]
          simp [coerceVal]
        | jint neg ds =>
          simp only [wfVal, Bool.and_eq_true, Bool.not_eq_true'] at hwf
          have hds : ds ≠ [] := by
            intro h; rw [h] at hwf; exact absurd hwf.1 (by decide)
          have hnone : parseCValue "bool" pre (renderVal (.jint neg ds) ++ tail) = none := by
            cases neg with
            | true =>
              refine parseCValue_bool_none _ _ '-' ?_ (by simp) (by simp)
              show ((['-'] ++ ds) ++ tail).head? = some '-'
              simp
            | false =>
              cases hd : ds with
              | nil => exact absurd hd hds
              | cons d ds' =>
                have hdig : isDigit d = true := by
                  rw [List.all_eq_true] at hwf
                  exact hwf.2 d (by rw [hd]; exact List.mem_cons_self _ _)
                refine parseCValue_bool_none _ _ d ?_
                  (digit_ne hdig (by decide)) (digit_ne hdig (by decide))
                show (((if false then ['-'] else []) ++ (d :: ds')) ++ tail).head? = some d
                simp
          rw [hnone]
          simp [coerceVal]
        | jobj ms =>
          have hnone : parseCValue "bool" pre (renderVal (.jobj ms) ++ tail) = none := by
            refine parseCValue_bool_none _ _ '{' ?_ (by simp) (by simp)
            show (('{' :: renderMembers ms ++ ['}']) ++ tail).head? = some '{'
            simp
          rw [hnone]
          simp [coerceVal]
        | jarr vs =>
          have hnone : parseCValue "bool" pre (renderVal (.jarr vs) ++ tail) = none := by
            refine parseCValue_bool_none _ _ '[' ?_ (by simp) (by simp)
            show (('[' :: renderArr vs ++ [']']) ++ tail).head? = some '['
            simp
          rw [hnone]
          simp [coerceVal]
      · have hnone : parseCValue ct pre (renderVal v ++ tail) = none := by
          unfold parseCValue
          rw [if_neg h1, if_neg h2, if_neg h3]
        rw [hnone]
        cases v <;> simp [coerceVal, h1, h2, h3]

theorem skipChars_nop (p : Char → Bool) (pre : List Char) (c : Char) (r : List Char)
    (h : p c = false) : skipChars p pre (c :: r) = (pre, c :: r) := by
  simp [skipChars, h]

theorem renderVal_head (v : JVal) (hwf : wfVal v = true) :
    ∃ c r, renderVal v = c :: r ∧ isWs c = false ∧ isWsComma c = false ∧
      (c == '}') = false := by
  cases v with
  | jstr cs =>
    refine ⟨'"', escapeChars cs ++ ['"'], ?_, by decide, by decide, by decide⟩
    show '"' :: escapeChars cs ++ ['"'] = _
    simp
  | jint neg ds =>
    simp only [wfVal, Bool.and_eq_true, Bool.not_eq_true'] at hwf
    cases neg with
    | true =>
      refine ⟨'-', ds, ?_, by decide, by decide, by decide⟩
      show (if true then ['-'] else []) ++ ds = _
      simp
    | false =>
      cases hd : ds with
      | nil =>
        exfalso
        rw [hd] at hwf
        exact absurd hwf.1 (by decide)
      | cons d ds2 =>
        have hdig : isDigit d = true := by
          rw [List.all_eq_true] at hwf
          exact hwf.2 d (by rw [hd]; exact List.mem_cons_self _ _)
        refine ⟨d, ds2, ?_, digit_not_ws hdig, digit_not_wsComma hdig,
          digit_beq_false hdig (by decide)⟩
        show (if false then ['-'] else []) ++ (d :: ds2) = _
        simp
  | jbool b =>
    cases b
    · exact ⟨'f', ['a', 'l', 's', 'e'], rfl, by decide, by decide, by decide⟩
    · exact ⟨'t', ['r', 'u', 'e'], rfl, by decide, by decide, by decide⟩
  | jobj ms =>
    refine ⟨'{', renderMembers ms ++ ['}'], ?_, by decide, by decide, by decide⟩
    show '{' :: renderMembers ms ++ ['}'] = _
    simp
  | jarr vs =>
    refine ⟨'[', renderArr vs ++ [']'], ?_, by decide, by decide, by decide⟩
    show '[' :: renderArr vs ++ [']'] = _
    simp

theorem parseBody_quote (fields : List FieldInfo)
    (recur : List Char → List Char → StructVal → Option (StructVal × List Char × List Char))
    (pre1 Y : List Char) (st : StructVal) :
    parseBody fields recur pre1 ('"' :: Y) st =
      (match readQuoted ('"' :: pre1) Y [] with
        | (key, pre2, rest3) => parseKeyDone fields recur key pre2 rest3 st) := rfl

theorem parseKeyDone_quote (fields : List FieldInfo)
    (recur : List Char → List Char → StructVal → Option (StructVal × List Char × List Char))
    (key pre2 Z : List Char) (st : StructVal) :
    parseKeyDone fields recur key pre2 ('"' :: Z) st =
      (match skipChars isWs ('"' :: pre2) Z with
        | (pre3, rest5) => parseColon fields recur key pre3 rest5 st) := rfl

theorem parseColon_red (fields : List FieldInfo)
    (recur : List Char → List Char → StructVal → Option (StructVal × List Char × List Char))
    (key pre3 W : List Char) (st : StructVal) :
    parseColon fields recur key pre3 (':' :: W) st =
      (match skipChars isWs (':' :: pre3) W with
        | (pre4, rest7) => parseValStage fields recur key pre4 rest7 st) := rfl

theorem parseValStage_render (fields : List FieldInfo)
    (hsupp : ∀ f ∈ fields, supportedCType f.CType = true)
    (recur : List Char → List Char → StructVal → Option (StructVal × List Char × List Char))
    (k : List Char) (v : JVal) (pre4 tail : List Char) (st : StructVal)
    (hpre : pre4.head? ≠ some '\\') (hv : wfVal v = true)
    (htail : tail.head? = some ',' ∨ tail.head? = some '}') :
    parseValStage fields recur k pre4 (renderVal v ++ tail) st =
      (match evalMember fields k v st with
        | some st' => recur ((renderVal v).reverse ++ pre4) tail st'
        | none => none) := by
  unfold parseValStage evalMember
  cases hff : findField fields k with
  | none =>
    dsimp only []
    rw [skipUnknown_top v pre4 tail hv hpre htail]
  | some fld =>
    dsimp only []
    have hsup : supportedCType fld.CType = true :=
      hsupp fld (List.mem_of_find?_eq_some hff)
    rw [if_pos hsup, parseCValue_render fld.CType v pre4 tail hv htail]
    cases hco : coerceVal fld.CType v with
    | none => rfl
    | some cv => rfl

theorem parseLoopFuel_member (fields : List FieldInfo)
    (hsupp : ∀ f ∈ fields, supportedCType f.CType = true)
    (k : List Char) (v : JVal) (fuel : Nat) (pre pre1 tail : List Char)
    (st : StructVal) (c : Char) (r : List Char) (hc : (c == '}') = false)
    (hskip : skipChars isWsComma pre (c :: r) = (pre1, renderMember k v ++ tail))
    (hk : k.all goodStrChar = true) (hv : wfVal v = true)
    (htail : tail.head? = some ',' ∨ tail.head? = some '}') :
    parseLoopFuel fields (fuel + 1) pre (c :: r) st =
      (match evalMember fields k v st with
        | some st' =>
          parseLoopFuel fields fuel ((renderMember k v).reverse ++ pre1) tail st'
        | none => none) := by
  have hshape : renderMember k v ++ tail =
      '"' :: (escapeChars k ++ '"' :: (':' :: (renderVal v ++ tail))) := by
    show ('"' :: escapeChars k ++ '"' :: ':' :: renderVal v) ++ tail = _
    simp [List.append_assoc]
  conv_lhs => unfold parseLoopFuel
  rw [if_neg (by simp [hc])]
  rw [hskip]
  dsimp only []
  rw [hshape, parseBody_quote]
  rw [readQuoted_escape k ('"' :: pre1) [] (':' :: (renderVal v ++ tail)) hk (by simp)]
  dsimp only [List.reverse_nil, List.nil_append]
  rw [parseKeyDone_quote]
  rw [skipChars_nop isWs _ ':' _ (by decide)]
  dsimp only []
  rw [parseColon_red]
  obtain ⟨c0, r0, hr, hws, _, _⟩ := renderVal_head v hv
  have hr2 : renderVal v ++ tail = c0 :: (r0 ++ tail) := by
    rw [hr]; rfl
  rw [hr2, skipChars_nop isWs _ c0 _ hws, ← hr2]
  dsimp only []
  rw [parseValStage_render fields hsupp (parseLoopFuel fields fuel) k v _ tail st
    (by simp) hv htail]
  cases hev : evalMember fields k v st with
  | none => rfl
  | some st2 =>
    dsimp only []
    have hpreeq : (renderVal v).reverse ++
        (':' :: '"' :: ((escapeChars k).reverse ++ '"' :: pre1)) =
        (renderMember k v).reverse ++ pre1 := by
      simp [renderMember, List.reverse_append, List.append_assoc]
    rw [hpreeq]

/-- Member count of a flat object, a lower bound on loop iterations. -/
def memCount : JMembers → Nat
  | .jnil => 0
  | .jcons _ _ rest => memCount rest + 1

theorem memCount_le_renderTail : ∀ (ms : JMembers),
    memCount ms ≤ (renderMembersTail ms).length
  | .jnil => Nat.le_refl _
  | .jcons k v rest => by
    have ih := memCount_le_renderTail rest
    show memCount rest + 1 ≤
      (',' :: '"' :: escapeChars k ++ '"' :: ':' :: renderVal v ++
        renderMembersTail rest).length
    simp only [List.length_append, List.length_cons]
    omega

theorem memCount_le_render (ms : JMembers) :
    memCount ms ≤ (renderMembers ms).length := by
  cases ms with
  | jnil => exact Nat.le_refl _
  | jcons k v rest =>
    have ih := memCount_le_renderTail rest
    show memCount rest + 1 ≤
      ('"' :: escapeChars k ++ '"' :: ':' :: renderVal v ++
        renderMembersTail rest).length
    simp only [List.length_append, List.length_cons]
    omega

theorem parseLoopFuel_renderTail (fields : List FieldInfo)
    (hsupp : ∀ f ∈ fields, supportedCType f.CType = true) :
    ∀ (ms : JMembers) (fuel : Nat) (pre : List Char) (st : StructVal),
      wfMembers ms = true → memCount ms < fuel →
      parseLoopFuel fields fuel pre (renderMembersTail ms ++ ['}']) st =
        (match evalMembers fields ms st with
          | some st' => some (st', (renderMembersTail ms).reverse ++ pre, ['}'])
          | none => none)
  | .jnil, fuel, pre, st, hwf, hfuel => by
    cases fuel with
    | zero => exact absurd hfuel (Nat.not_lt_zero _)
    | succ f => rfl
  | .jcons k v rest, fuel, pre, st, hwf, hfuel => by
    simp only [wfMembers, Bool.and_eq_true] at hwf
    obtain ⟨⟨hk, hv⟩, hrest⟩ := hwf
    cases fuel with
    | zero => exact absurd hfuel (Nat.not_lt_zero _)
    | succ f =>
      have hshape : renderMembersTail (.jcons k v rest) ++ ['}'] =
          ',' :: (renderMember k v ++ (renderMembersTail rest ++ ['}'])) := by
        show (',' :: '"' :: escapeChars k ++ '"' :: ':' :: renderVal v ++
          renderMembersTail rest) ++ ['}'] = _
        simp [renderMember, List.append_assoc]
      rw [hshape]
      have hm : renderMember k v ++ (renderMembersTail rest ++ ['}']) =
          '"' :: (escapeChars k ++ '"' :: ':' :: renderVal v ++
            (renderMembersTail rest ++ ['}'])) := by
        show ('"' :: escapeChars k ++ '"' :: ':' :: renderVal v) ++ _ = _
        simp [List.append_assoc]
      have hskip : skipChars isWsComma pre
          (',' :: (renderMember k v ++ (renderMembersTail rest ++ ['}']))) =
          (pre.cons ',', renderMember k v ++ (renderMembersTail rest ++ ['}'])) := by
        rw [hm]
        rfl
      have htail : (renderMembersTail rest ++ ['}']).head? = some ',' ∨
          (renderMembersTail rest ++ ['}']).head? = some '}' := by
        cases rest with
        | jnil => right; rfl
        | jcons k2 v2 r2 => left; rfl
      rw [parseLoopFuel_member fields hsupp k v f pre (',' :: pre)
        (renderMembersTail rest ++ ['}']) st ',' _ (by decide) hskip hk hv htail]
      cases hev : evalMember fields k v st with
      | none =>
        show none = (match evalMembers fields (.jcons k v rest) st with
          | some st' => _ | none => none)
        simp [evalMembers, hev]
      | some st2 =>
        dsimp only []
        rw [parseLoopFuel_renderTail fields hsupp rest f
          ((renderMember k v).reverse ++ (',' :: pre)) st2 hrest
          (by simp only [memCount] at hfuel; omega)]
        show _ = (match evalMembers fields (.jcons k v rest) st with
          | some st' => some (st', (renderMembersTail (.jcons k v rest)).reverse ++ pre,
              ['}'])
          | none => none)
        have hev2 : evalMembers fields (.jcons k v rest) st =
            evalMembers fields rest st2 := by
          simp [evalMembers, hev]
        rw [hev2]
        cases hx : evalMembers fields rest st2 with
        | none => rfl
        | some st3 =>
          dsimp only []
          have hpreeq : (renderMembersTail rest).reverse ++
              ((renderMember k v).reverse ++ (',' :: pre)) =
              (renderMembersTail (.jcons k v rest)).reverse ++ pre := by
            show _ = (',' :: '"' :: escapeChars k ++ '"' :: ':' :: renderVal v ++
              renderMembersTail rest).reverse ++ pre
            simp [renderMember, List.reverse_append, List.append_assoc]
          rw [hpreeq]

theorem parseLoopFuel_renderMembers (fields : List FieldInfo)
    (hsupp : ∀ f ∈ fields, supportedCType f.CType = true) (ms : JMembers)
    (fuel : Nat) (pre : List Char) (st : StructVal)
    (hwf : wfMembers ms = true) (hfuel : memCount ms < fuel) :
    parseLoopFuel fields fuel pre (renderMembers ms ++ ['}']) st =
      (match evalMembers fields ms st with
        | some st' => some (st', (renderMembers ms).reverse ++ pre, ['}'])
        | none => none) := by
  cases ms with
  | jnil =>
    cases fuel with
    | zero => exact absurd hfuel (Nat.not_lt_zero _)
    | succ f => rfl
  | jcons k v rest =>
    simp only [wfMembers, Bool.and_eq_true] at hwf
    obtain ⟨⟨hk, hv⟩, hrest⟩ := hwf
    cases fuel with
    | zero => exact absurd hfuel (Nat.not_lt_zero _)
    | succ f =>
      have hshape : renderMembers (.jcons k v rest) ++ ['}'] =
          renderMember k v ++ (renderMembersTail rest ++ ['}']) := by
        show ('"' :: escapeChars k ++ '"' :: ':' :: renderVal v ++
          renderMembersTail rest) ++ ['}'] = _
        simp [renderMember, List.append_assoc]
      have hm : renderMember k v ++ (renderMembersTail rest ++ ['}']) =
          '"' :: (escapeChars k ++ '"' :: ':' :: renderVal v ++
            (renderMembersTail rest ++ ['}'])) := by
        show ('"' :: escapeChars k ++ '"' :: ':' :: renderVal v) ++ _ = _
        simp [List.append_assoc]
      rw [hshape.trans hm]
      have hskip : skipChars isWsComma pre
          ('"' :: (escapeChars k ++ '"' :: ':' :: renderVal v ++
            (renderMembersTail rest ++ ['}']))) =
          (pre, renderMember k v ++ (renderMembersTail rest ++ ['}'])) := by
        rw [hm]
        exact skipChars_nop _ _ _ _ (by decide)
      have htail : (renderMembersTail rest ++ ['}']).head? = some ',' ∨
          (renderMembersTail rest ++ ['}']).head? = some '}' := by
        cases rest with
        | jnil => right; rfl
        | jcons k2 v2 r2 => left; rfl
      have hstep := parseLoopFuel_member fields hsupp k v f pre pre
        (renderMembersTail rest ++ ['}']) st '"' _ (by decide) hskip hk hv htail
      rw [hstep]
      cases hev : evalMember fields k v st with
      | none =>
        show none = (match evalMembers fields (.jcons k v rest) st with
          | some st' => _ | none => none)
        simp [evalMembers, hev]
      | some st2 =>
        dsimp only []
        rw [parseLoopFuel_renderTail fields hsupp rest f
          ((renderMember k v).reverse ++ pre) st2 hrest
          (by simp only [memCount] at hfuel; omega)]
        have hev2 : evalMembers fields (.jcons k v rest) st =
            evalMembers fields rest st2 := by
          simp [evalMembers, hev]
        show _ = (match evalMembers fields (.jcons k v rest) st with
          | some st' => some (st', (renderMembers (.jcons k v rest)).reverse ++ pre,
              ['}'])
          | none => none)
        rw [hev2]
        cases hx : evalMembers fields rest st2 with
        | none => rfl
        | some st3 =>
          dsimp only []
          have hpreeq : (renderMembersTail rest).reverse ++
              ((renderMember k v).reverse ++ pre) =
              (renderMembers (.jcons k v rest)).reverse ++ pre := by
            show _ = ('"' :: escapeChars k ++ '"' :: ':' :: renderVal v ++
              renderMembersTail rest).reverse ++ pre
            simp [renderMember, List.reverse_append, List.append_assoc]
          rw [hpreeq]

theorem parse_json_render (fields : List FieldInfo)
    (hsupp : ∀ f ∈ fields, supportedCType f.CType = true)
    (ms : JMembers) (hwf : wfMembers ms = true) :
    parse_json fields ('{' :: renderMembers ms ++ ['}']) =
      evalMembers fields ms (initStruct fields) := by
  show (match parseLoopFuel fields ((('{' :: renderMembers ms) ++ ['}']).length + 1) ['{']
      (renderMembers ms ++ ['}']) (initStruct fields) with
    | none => none
    | some (st, pre', rest') =>
      match skipChars isWsComma pre' rest' with
      | (_, '}' :: _) => some st
      | _ => none) = evalMembers fields ms (initStruct fields)
  have hfuel : memCount ms < (('{' :: renderMembers ms) ++ ['}']).length + 1 := by
    have hle := memCount_le_render ms
    simp only [List.length_append, List.length_cons]
    omega
  rw [parseLoopFuel_renderMembers fields hsupp ms _ ['{'] (initStruct fields) hwf hfuel]
  cases hev : evalMembers fields ms (initStruct fields) with
  | none => rfl
  | some st => rfl

theorem evalMembers_filterKnown (fields : List FieldInfo) :
    ∀ (ms : JMembers) (st : StructVal),
      evalMembers fields (filterKnown fields ms) st = evalMembers fields ms st
  | .jnil, st => rfl
  | .jcons k v rest, st => by
    show evalMembers fields (filterKnown fields (.jcons k v rest)) st =
      (match evalMember fields k v st with
        | some st' => evalMembers fields rest st'
        | none => none)
    unfold filterKnown
    cases hff : findField fields k with
    | some f =>
      dsimp only []
      show (match evalMember fields k v st with
        | some st' => evalMembers fields (filterKnown fields rest) st'
        | none => none) = _
      cases hev : evalMember fields k v st with
      | none => rfl
      | some st2 =>
        dsimp only []
        exact evalMembers_filterKnown fields rest st2
    | none =>
      dsimp only []
      have hev : evalMember fields k v st = some st := by
        unfold evalMember
        rw [hff]
      rw [hev]
      exact evalMembers_filterKnown fields rest st

theorem wfMembers_filterKnown (fields : List FieldInfo) :
    ∀ (ms : JMembers), wfMembers ms = true →
      wfMembers (filterKnown fields ms) = true
  | .jnil, _ => rfl
  | .jcons k v rest, h => by
    simp only [wfMembers, Bool.and_eq_true] at h
    unfold filterKnown
    cases findField fields k with
    | none => exact wfMembers_filterKnown fields rest h.2
    | some f =>
      dsimp only []
      show (k.all goodStrChar && wfVal v && wfMembers (filterKnown fields rest)) = true
      simp [h.1.1, h.1.2, wfMembers_filterKnown fields rest h.2]

/-- C7: over schemas whose field types are all supported and over documents of
    the restricted well-formed flat-object grammar (string contents free of
    backslashes and NULs with quotes rendered escaped, integers a non-empty
    digit run with optional minus, the two boolean literals, arbitrarily
    nested objects and arrays as values), the generated parser skips each
    unknown key's value span and the overall result — both the parse_json
    outcome and the end-to-end Go-side Parse result — is identical to parsing
    the same document with the unknown-key members removed; within this
    grammar an unknown key never causes an error. (Outside it this fails:
    see the lone-backslash counterexample.) -/
theorem c7_unknown_keys_removed (fields : List FieldInfo) (ms : JMembers)
    (hsupp : ∀ f ∈ fields, supportedCType f.CType = true)
    (hwf : wfMembers ms = true) :
    parse_json fields (renderDoc ms).toList =
      evalMembers fields ms (initStruct fields) ∧
    goParse fields (renderDoc ms) =
      goParse fields (renderDoc (filterKnown fields ms)) := by
  have h1 : parse_json fields (renderDoc ms).toList =
      evalMembers fields ms (initStruct fields) :=
    parse_json_render fields hsupp ms hwf
  have h2 : parse_json fields (renderDoc (filterKnown fields ms)).toList =
      evalMembers fields (filterKnown fields ms) (initStruct fields) :=
    parse_json_render fields hsupp (filterKnown fields ms)
      (wfMembers_filterKnown fields ms hwf)
  have h3 : parse_json fields (renderDoc ms).toList =
      parse_json fields (renderDoc (filterKnown fields ms)).toList := by
    rw [h1, h2, evalMembers_filterKnown]
  refine ⟨h1, ?_⟩
  have hps : parse_and_serialize_json fields (renderDoc ms).toList =
      parse_and_serialize_json fields (renderDoc (filterKnown fields ms)).toList := by
    unfold parse_and_serialize_json
    rw [h3]
  unfold goParse runDriver
  rw [hps]

/-- The spec's extra-field example document as a grammar term. -/
def exampleDoc : JMembers :=
  .jcons "name".toList (.jstr "X".toList)
    (.jcons "age".toList (.jint false "1".toList)
      (.jcons "is_student".toList (.jbool true)
        (.jcons "extra".toList (.jstr "y".toList) .jnil)))

theorem c7_unknown_keys_removed_witness :
    (∀ f ∈ personFields, supportedCType f.CType = true) ∧
    wfMembers exampleDoc = true ∧
    (parse_json personFields (renderDoc exampleDoc).toList =
        evalMembers personFields exampleDoc (initStruct personFields) ∧
      goParse personFields (renderDoc exampleDoc) =
        goParse personFields (renderDoc (filterKnown personFields exampleDoc))) :=
  ⟨by decide, by decide,
    c7_unknown_keys_removed personFields exampleDoc (by decide) (by decide)⟩
